import Mathlib

/-!
Verification development for the support-bot hybrid retrieval-and-answer
pipeline (Supabase edge functions `ask-bot`, SQL `001_hybrid_search.sql`).

The TypeScript and SQL sources are shallowly embedded: strings are `List
Char`, JavaScript numbers are rationals extended with a NaN point, the
regex replaces of `normalizeLocal` / `normalize_text` are implemented as
left-to-right scans with the exact pattern semantics of the source, and
the request handlers become pure functions from a request model plus
oracles for the external services to a response model plus a call trace.
-/

namespace SupportBot

/-- Strings are modelled as lists of characters. -/
abbrev Str := List Char

/-- The apostrophe character (U+0027), built from its code point. -/
def aposChar : Char := Char.ofNat 39

/-- The backspace character (U+0008).  In a PostgreSQL POSIX regular
expression the escape `\b` denotes this character (a character-entry
escape, as in C); the word-boundary constraint is spelled `\y` there. -/
def bsChar : Char := Char.ofNat 8

/-- The horizontal-ellipsis character (U+2026) appended to truncated
citation snippets by the edge function. -/
def ellipsisChar : Char := Char.ofNat 0x2026

/-- The trade-mark-sign character (U+2122).  Its Unicode compatibility
(NFKD) decomposition is the two-character sequence "TM". -/
def tmChar : Char := Char.ofNat 0x2122

/-- JavaScript whitespace: the class matched by `\s` in a JS regular
expression and stripped by `String.prototype.trim` (WhiteSpace together
with LineTerminator code points). -/
def isJsWs (c : Char) : Bool :=
  c.toNat == 9 || c.toNat == 10 || c.toNat == 11 || c.toNat == 12 ||
  c.toNat == 13 || c.toNat == 32 || c.toNat == 0xa0 || c.toNat == 0x1680 ||
  (0x2000 ≤ c.toNat && c.toNat ≤ 0x200a) || c.toNat == 0x2028 ||
  c.toNat == 0x2029 || c.toNat == 0x202f || c.toNat == 0x205f ||
  c.toNat == 0x3000 || c.toNat == 0xfeff

/-- JavaScript word characters: the class `\w = [A-Za-z0-9_]` used by the
word-boundary assertion `\b` of a non-unicode JS regular expression. -/
def isJsWord (c : Char) : Bool :=
  (65 ≤ c.toNat && c.toNat ≤ 90) || (97 ≤ c.toNat && c.toNat ≤ 122) ||
  (48 ≤ c.toNat && c.toNat ≤ 57) || c.toNat == 95

/-- Uppercase ASCII letter. -/
def isUpperAscii (c : Char) : Bool := 65 ≤ c.toNat && c.toNat ≤ 90

/-- `String.prototype.toLowerCase`, modelled character-wise: ASCII
letters are mapped to their lowercase forms; the non-ASCII characters
appearing in this development are fixed points of `toLowerCase` and are
modelled by the identity. -/
def jsToLower (c : Char) : Char :=
  if isUpperAscii c then Char.ofNat (c.toNat + 32) else c

/-- Combining diacritical marks U+0300 – U+036F, the class removed by the
accent-stripping replace of `normalizeLocal`. -/
def isCombining (c : Char) : Bool := 0x300 ≤ c.toNat && c.toNat ≤ 0x36f

/-- Character-wise NFKD decomposition (`String.prototype.normalize`
with argument "NFKD").  NFKD is the identity on ASCII; combining marks
are already decomposed; the compatibility character U+2122 TRADE MARK
SIGN decomposes to "TM".  Characters outside the set used in this
development are modelled as NFKD-invariant. -/
def nfkdChar (c : Char) : Str :=
  if c.toNat == 0x2122 then ['T', 'M'] else [c]

/-- Match a literal prefix, returning the remainder of the input. -/
def litPrefix : Str → Str → Option Str
  | [], s => some s
  | _ :: _, [] => none
  | p :: ps, c :: cs => if p == c then litPrefix ps cs else none

/-- Split off the longest prefix of JS whitespace (the greedy `\s*`). -/
def spanJsWs (s : Str) : Str × Str := (s.takeWhile isJsWs, s.dropWhile isJsWs)

/-- The JS word-boundary assertion `\b` placed after a word character:
satisfied at end of input or before a non-word character. -/
def jsBoundaryAfter (rest : Str) : Bool :=
  match rest with
  | [] => true
  | c :: _ => !isJsWord c

/-- The JS word-boundary assertion `\b` placed before a word character:
satisfied at the start of the input or after a non-word character.
`prev` is the character immediately before the current position. -/
def jsBoundaryBefore (prev : Option Char) : Bool :=
  match prev with
  | none => true
  | some p => !isJsWord p

/-- A matcher tries to recognise one occurrence of a pattern at the head
of the input, given the previous character; on success it returns the
matched text together with the remaining input. -/
abbrev Matcher := Option Char → Str → Option (Str × Str)

/-- Matcher for the JS regex `control\s*4\b` of `normalizeLocal`. -/
def matchControl4 : Matcher := fun _ s =>
  match litPrefix "control".data s with
  | none => none
  | some r1 =>
    match r1.dropWhile isJsWs with
    | [] => none
    | c :: r3 =>
      if c = '4' ∧ jsBoundaryAfter r3 = true then
        some ("control".data ++ r1.takeWhile isJsWs ++ ['4'], r3)
      else none

/-- Matcher for the JS regex `\b4\s*sight\b` of `normalizeLocal`. -/
def match4Sight : Matcher := fun prev s =>
  if jsBoundaryBefore prev = true then
    match s with
    | [] => none
    | c :: r1 =>
      if c = '4' then
        match litPrefix "sight".data (r1.dropWhile isJsWs) with
        | some r3 =>
          if jsBoundaryAfter r3 = true then
            some ('4' :: r1.takeWhile isJsWs ++ "sight".data, r3)
          else none
        | none => none
      else none
  else none

/-- Matcher for the JS regex `\bos\s*v?3\b` of `normalizeLocal`.  The
greedy `\s*` cannot backtrack usefully here (neither `v` nor `3` is
whitespace), and after an unproductive `v` the regex cannot match at
all, so maximal munch followed by the optional `v` is exact. -/
def matchOsV3 : Matcher := fun prev s =>
  if jsBoundaryBefore prev = true then
    match litPrefix "os".data s with
    | none => none
    | some r1 =>
      match r1.dropWhile isJsWs with
      | [] => none
      | c :: r2 =>
        if c = 'v' then
          match r2 with
          | [] => none
          | c2 :: r3 =>
            if c2 = '3' ∧ jsBoundaryAfter r3 = true then
              some ("os".data ++ r1.takeWhile isJsWs ++ ['v', '3'], r3)
            else none
        else if c = '3' ∧ jsBoundaryAfter r2 = true then
          some ("os".data ++ r1.takeWhile isJsWs ++ ['3'], r2)
        else none
  else none

/-- Matcher for the JS regex `\s+` used by the whitespace collapse. -/
def matchJsWsRun : Matcher := fun _ s =>
  match s with
  | c :: _ =>
    if isJsWs c then some (s.takeWhile isJsWs, s.dropWhile isJsWs) else none
  | [] => none

/-- One step of `String.prototype.replace` with a global regex: scan left
to right; at a match, emit the replacement and resume after the matched
text (the character preceding the resume point is the last matched
character); otherwise move one character forward.  `fuel` bounds the
recursion and is set to the input length, which suffices because every
matcher consumes at least one character. -/
def replaceGo (m : Matcher) (r : Str) : Nat → Option Char → Str → Str
  | 0, _, s => s
  | _ + 1, _, [] => []
  | fuel + 1, prev, c :: cs =>
    match m prev (c :: cs) with
    | some (mt, rest) => r ++ replaceGo m r fuel mt.getLast? rest
    | none => c :: replaceGo m r fuel (some c) cs

/-- `s.replace(regex-with-g-flag, r)` for a matcher `m`. -/
def replaceAll (m : Matcher) (r : Str) (s : Str) : Str :=
  replaceGo m r s.length none s

/-- `String.prototype.trim`. -/
def jsTrim (s : Str) : Str :=
  ((s.dropWhile isJsWs).reverse.dropWhile isJsWs).reverse

/-- The accent-stripping and decomposition prefix of `normalizeLocal`:
`.toLowerCase().normalize("NFKD").replace(/[̀-ͯ]/g, "")`. -/
def foldLower (s : Str) : Str :=
  ((s.map jsToLower).flatMap nfkdChar).filter (fun c => !isCombining c)

/-- `normalizeLocal` from `supabase/functions/ask-bot/index.ts` on
character lists: lowercase, NFKD, strip combining marks, rewrite
`control\s*4\b` → "control4", `\b4\s*sight\b` → "4sight",
`\bos\s*v?3\b` → "os3", collapse `\s+` to a single space, trim. -/
def normalizeLocalL (s : Str) : Str :=
  jsTrim (replaceAll matchJsWsRun [' ']
    (replaceAll matchOsV3 "os3".data
      (replaceAll match4Sight "4sight".data
        (replaceAll matchControl4 "control4".data (foldLower s)))))

/-- `normalizeLocal` on strings. -/
def normalizeLocal (s : String) : String := ⟨normalizeLocalL s.data⟩

/-! ### The database-side normalization `public.normalize_text`
(`supabase/sql/001_hybrid_search.sql`).

PostgreSQL semantics embedded here: `lower` maps ASCII letters (C-locale
behaviour on the characters used in this development); `trim(input)`
with no explicit character list removes only space characters (0x20)
from both ends; `unaccent` is the identity on ASCII; in a POSIX ARE the
escape `\s` is `[[:space:]]` and `\b` is the character-entry escape for
backspace (0x08) — the word-boundary constraint would be `\y` — so every
rewrite pattern of `normalize_text` demands literal backspace characters
around the phrase being rewritten. -/

/-- PostgreSQL `[[:space:]]` (C locale): space, tab, newline, vertical
tab, form feed, carriage return. -/
def isPgWs (c : Char) : Bool :=
  c.toNat == 32 || c.toNat == 9 || c.toNat == 10 ||
  c.toNat == 11 || c.toNat == 12 || c.toNat == 13

/-- PostgreSQL `lower` on the characters used here: ASCII letters map to
lowercase, everything else is unchanged. -/
def pgLower (c : Char) : Char :=
  if isUpperAscii c then Char.ofNat (c.toNat + 32) else c

/-- PostgreSQL `trim(x)` (no character list): strip spaces — only the
character 0x20 — from both ends. -/
def pgTrimSpaces (s : Str) : Str :=
  ((s.dropWhile (· == ' ')).reverse.dropWhile (· == ' ')).reverse

/-- PostgreSQL `unaccent` on the characters used in this development:
the identity on ASCII (true of `unaccent`); accented characters outside
that set are not used here and are modelled as unchanged. -/
def unaccentChar (c : Char) : Char := c

/-- Matcher for a `normalize_text` rewrite pattern of the shape
`\b` `pre` `\s*` `post` `\b` (POSIX ARE): a literal backspace, the
literal `pre`, optional `[[:space:]]`s, the literal `post`, and a
closing literal backspace. -/
def matchPgBs (pre post : Str) : Matcher := fun _ s =>
  match s with
  | c :: r0 =>
    if c == bsChar then
      match litPrefix pre r0 with
      | none => none
      | some r1 =>
        let gap := r1.takeWhile isPgWs
        match litPrefix post (r1.dropWhile isPgWs) with
        | some (c2 :: r3) =>
          if c2 == bsChar then
            some (bsChar :: pre ++ gap ++ post ++ [bsChar], r3)
          else none
        | _ => none
    else none
  | [] => none

/-- Matcher for a `normalize_text` rewrite pattern of the shape
`\b` `word` `\b` with no internal `\s*` (the `\bc4\b` and `\bcan''t\b`
rewrites): a literal backspace, the literal `word`, a literal
backspace. -/
def matchPgBsLit (word : Str) : Matcher := fun _ s =>
  match s with
  | c :: r0 =>
    if c == bsChar then
      match litPrefix word r0 with
      | some (c2 :: r3) =>
        if c2 == bsChar then
          some (bsChar :: word ++ [bsChar], r3)
        else none
      | _ => none
    else none
  | [] => none

/-- Matcher for the POSIX ARE `\bos\s*v?3\b` of `normalize_text` (again
with `\b` denoting a literal backspace). -/
def matchPgOsV3 : Matcher := fun _ s =>
  match s with
  | c :: r0 =>
    if c == bsChar then
      match litPrefix "os".data r0 with
      | none => none
      | some r1 =>
        let gap := r1.takeWhile isPgWs
        match r1.dropWhile isPgWs with
        | 'v' :: '3' :: c2 :: r3 =>
          if c2 == bsChar then
            some (bsChar :: "os".data ++ gap ++ ['v', '3', bsChar], r3)
          else none
        | '3' :: c2 :: r3 =>
          if c2 == bsChar then
            some (bsChar :: "os".data ++ gap ++ ['3', bsChar], r3)
          else none
        | _ => none
    else none
  | [] => none

/-- Matcher for the POSIX ARE `\s+`. -/
def matchPgWsRun : Matcher := fun _ s =>
  match s with
  | c :: _ =>
    if isPgWs c then some (s.takeWhile isPgWs, s.dropWhile isPgWs) else none
  | [] => none

/-- The word "can't" (with a literal apostrophe), i.e. the text the SQL
pattern `\bcan''t\b` spells between its `\b` escapes. -/
def cantWord : Str := "can".data ++ [aposChar, 't']

/-- `public.normalize_text` on character lists, stage by stage in source
order: lowercase, trim (spaces), unaccent, the seven `regexp_replace`
rewrites, and the final whitespace collapse.  There is no trailing
trim. -/
def normalizeTextL (s : Str) : Str :=
  let s1 := ((pgTrimSpaces (s.map pgLower)).map unaccentChar)
  let s2 := replaceAll (matchPgBs "control".data ['4']) "control4".data s1
  let s3 := replaceAll (matchPgBsLit "c4".data) "control4".data s2
  let s4 := replaceAll (matchPgBs ['4'] "sight".data) "4sight".data s3
  let s5 := replaceAll (matchPgBs "os".data ['3']) "os3".data s4
  let s6 := replaceAll matchPgOsV3 "os3".data s5
  let s7 := replaceAll (matchPgBs "log".data "in".data) "login".data s6
  let s8 := replaceAll (matchPgBsLit cantWord) "cannot".data s7
  replaceAll matchPgWsRun [' '] s8

/-- `public.normalize_text` on strings (the SQL function maps NULL to
the empty string; strings here are never NULL). -/
def normalizeText (s : String) : String := ⟨normalizeTextL s.data⟩

/-! ### The hybrid search `public.search_kb_hybrid`
(`supabase/sql/001_hybrid_search.sql`).

The three candidate CTEs (`sem`, `lex`, `tri`) are each an oversampled
list of `(id, score)` pairs derived from the knowledge store; the claims
quantify over fixed candidate scores, so these lists are inputs here.
The `fused` CTE left-joins them from the whole `kb_chunks` table —
every chunk id appears, with `coalesce(score, 0)` per signal — and the
final `SELECT` orders by the weighted score descending with no further
sort key and truncates with `LIMIT k`.  An `ORDER BY` on a non-unique
key does not determine the relative order of equal-score rows, so the
query's outcome is modelled as a relation: any stable-or-not descending
arrangement of the fused rows, truncated to `k`, is a possible result
set. -/

/-- One output row of `search_kb_hybrid`: chunk id, fused score and the
three per-signal components (`sem_score`, `lex_score`, `tri_score`). -/
structure FusedRow where
  id : Int
  score : ℚ
  semScore : ℚ
  lexScore : ℚ
  triScore : ℚ
deriving DecidableEq, Repr

/-- Score lookup after a `LEFT JOIN ... USING (id)` with
`coalesce(score, 0)`: the signal's score if the id was surfaced by that
signal, 0 otherwise (candidate lists key each id at most once, as each
CTE selects from the keyed `kb_chunks` table). -/
def signalScore (sig : List (Int × ℚ)) (i : Int) : ℚ :=
  match sig.find? (fun p => p.1 == i) with
  | some p => p.2
  | none => 0

/-- The `fused` CTE: every chunk id of the table, each with its three
coalesced signal scores, and the weighted fused score
`w_semantic*sem_score + w_lexical*lex_score + w_trigram*tri_score`. -/
def fusedTable (kb : List Int) (sem lex tri : List (Int × ℚ))
    (ws wl wt : ℚ) : List FusedRow :=
  kb.map fun i =>
    let s := signalScore sem i
    let l := signalScore lex i
    let t := signalScore tri i
    ⟨i, ws * s + wl * l + wt * t, s, l, t⟩

/-- Weak descending order on fused scores: what `ORDER BY score DESC`
guarantees about the emitted row sequence. -/
def scoreSortedDesc (l : List FusedRow) : Prop :=
  l.Sorted (fun a b => b.score ≤ a.score)

/-- The possible result sets of
`search_kb_hybrid(q_text, q_embedding, ws, wl, wt, k)` for fixed
candidate scores: some arrangement of the fused rows that is weakly
descending by score, truncated to `k`.  Equal-score rows may appear in
any relative order. -/
def searchKbHybridOut (kb : List Int) (sem lex tri : List (Int × ℚ))
    (ws wl wt : ℚ) (k : Nat) (out : List FusedRow) : Prop :=
  ∃ l, (fusedTable kb sem lex tri ws wl wt).Perm l ∧ scoreSortedDesc l ∧
    out = l.take k

/-- The ordering property claimed of the fused output: strictly
descending by score with ties broken by ascending passage id. -/
def tieBreakAscending (l : List FusedRow) : Prop :=
  l.Sorted (fun a b => b.score < a.score ∨ (a.score = b.score ∧ a.id < b.id))

/-! ### The `ask-bot` edge function handlers.

`supabase/functions/ask-bot/index.ts` is embedded as a pure function
from the request (method, parsed JSON body), the environment variables
and oracles for the external services (embedding payload, RPC result,
chat-completion payload, the generated UUID) to the HTTP outcome plus
the ordered trace of external calls.  The conversational variant of the
handler (the TylerBot version with session history and the social
classifier) is embedded alongside, with the stored session history and
the history-fetch outcome as further inputs.  JavaScript numbers are
rationals extended with NaN; doubles' rounding artifacts are not
modelled.  Strings are compared and sliced by character (the sources
never split surrogate pairs in the claims' scope). -/

/-- A parsed JSON value, as far as the handler inspects one.  `jobj`
stands for any array or object value (the handler only ever observes
that such values are not strings, not `=== true`, truthy and coerce to
NaN, as plain objects do). -/
inductive JsonValue
  | jnull
  | jbool (b : Bool)
  | jnum (q : ℚ)
  | jstr (s : String)
  | jobj
deriving DecidableEq, Repr

/-- A JavaScript number: a rational or NaN. -/
inductive JNum
  | nan
  | val (q : ℚ)
deriving DecidableEq, Repr

/-- JavaScript truthiness of a JSON value. -/
def jsTruthy : JsonValue → Bool
  | .jnull => false
  | .jbool b => b
  | .jnum q => q != 0
  | .jstr s => s != ""
  | .jobj => true

/-- The nullish-coalescing operator `x ?? d` on an optional body field
(absent and `null` both yield the default). -/
def nullishOr (v : Option JsonValue) (d : JsonValue) : JsonValue :=
  match v with
  | none => d
  | some .jnull => d
  | some x => x

/-- Decimal digit decoding for the JS `Number(string)` coercion. -/
def decDigits : Str → Option Nat
  | [] => none
  | l => l.foldl (fun acc c =>
      match acc with
      | none => none
      | some n => if c.isDigit then some (n * 10 + (c.toNat - 48)) else none)
      (some 0)

/-- `Number(string)` on the decimal forms `[+-]? digits [. digits]?`
(with surrounding JS whitespace, and the empty string coercing to 0);
other numeric forms accepted by JS (exponents, hex, `Infinity`) do not
occur in this development and coerce to NaN here. -/
def jsStrToNum (s : Str) : JNum :=
  let t := ((s.dropWhile isJsWs).reverse.dropWhile isJsWs).reverse
  match t with
  | [] => .val 0
  | '-' :: r => match jsParseDec r with | some q => .val (-q) | none => .nan
  | '+' :: r => match jsParseDec r with | some q => .val q | none => .nan
  | _ => match jsParseDec t with | some q => .val q | none => .nan
where
  jsParseDec (u : Str) : Option ℚ :=
    let ip := u.takeWhile Char.isDigit
    match u.dropWhile Char.isDigit with
    | [] => (decDigits ip).map (fun n => (n : ℚ))
    | '.' :: fr =>
      if fr.all Char.isDigit ∧ (ip ≠ [] ∨ fr ≠ []) then
        match decDigits ip, fr with
        | some n, [] => some (n : ℚ)
        | some n, _ =>
          (decDigits fr).map (fun m => (n : ℚ) + (m : ℚ) / (10 : ℚ) ^ fr.length)
        | none, [] => none
        | none, _ => (decDigits fr).map (fun m => (m : ℚ) / (10 : ℚ) ^ fr.length)
      else none
    | _ => none

/-- The JS `Number(v)` coercion on JSON values. -/
def jsNumber : JsonValue → JNum
  | .jnull => .val 0
  | .jbool b => .val (cond b 1 0)
  | .jnum q => .val q
  | .jstr s => jsStrToNum s.data
  | .jobj => .nan

/-- `Math.min` (NaN-propagating). -/
def jsNumMin : JNum → JNum → JNum
  | .nan, _ => .nan
  | _, .nan => .nan
  | .val a, .val b => .val (min a b)

/-- `Math.max` (NaN-propagating). -/
def jsNumMax : JNum → JNum → JNum
  | .nan, _ => .nan
  | _, .nan => .nan
  | .val a, .val b => .val (max a b)

/-- Truncation toward zero of a slice bound, clamped below at 0: the
effect of ToIntegerOrInfinity on a non-negative slice bound (computed on
the rational's numerator and denominator so it evaluates by
reduction). -/
def truncToNat (q : ℚ) : Nat :=
  if q.num ≤ 0 then 0 else q.num.toNat / q.den

/-- `hits.slice(0, Math.min(hits.length, topK))` as an element count:
NaN bounds slice to nothing; a numeric bound is `min(len, q)`
truncated. -/
def jsSliceTake (len : Nat) (k : JNum) : Nat :=
  match k with
  | .nan => 0
  | .val q => if (len : ℚ) ≤ q then len else truncToNat q

/-- `l.slice(-n)`: the last `n` elements (all of them when `n ≥ l.length`). -/
def jsSliceLast (l : List α) (n : Nat) : List α := l.drop (l.length - n)

/-- A knowledge-base row as the edge function types it (`KBRow`). -/
structure KBRow where
  id : Option String
  content : String
  score : Option ℚ
  sourceUrl : Option String
  sourceTitle : Option String
  updatedAt : Option String
deriving DecidableEq, Repr

/-- A citation as the edge function builds one. -/
structure Citation where
  index : Nat
  title : String
  url : String
  snippet : String
  score : ℚ
  updatedAt : Option String
deriving DecidableEq, Repr

/-- A chat message for the generation service. -/
structure ChatMsg where
  role : String
  content : String
deriving DecidableEq, Repr

/-- `Number.prototype.toFixed(3)`: sign first, then the magnitude
rounded to the nearest thousandth, ties upward
(`⌊|q|·1000 + 1/2⌋ = (|num|·2000 + den) / (2·den)` in integers —
computed on numerator and denominator so it evaluates by reduction;
binary-double rounding artifacts are not modelled). -/
def toFixed3 (q : ℚ) : String :=
  let sign := if q.num < 0 then "-" else ""
  let n := (q.num.natAbs * 2000 + q.den) / (2 * q.den)
  let frac := n % 1000
  let fracStr :=
    (if frac < 10 then "00" else if frac < 100 then "0" else "") ++ toString frac
  sign ++ toString (n / 1000) ++ "." ++ fracStr

/-- One rendered context entry:
``[#i | score=<score to 3 decimals>]\n<content>`` with `i` 1-based. -/
def contextEntry (i : Nat) (r : KBRow) : String :=
  "[#" ++ toString (i + 1) ++ " | score=" ++ toFixed3 (r.score.getD 0) ++ "]\n"
    ++ r.content

/-- The context block: entries for the rows in order, joined by blank
lines. -/
def contextOf (rows : List KBRow) : String :=
  String.intercalate "\n\n" (rows.mapIdx contextEntry)

/-- The citation built from the row at 0-based context position `i`. -/
def citationAt (i : Nat) (r : KBRow) : Citation :=
  ⟨i + 1,
   (match r.sourceTitle with
    | some t => if t == "" then "Knowledge Base Article" else t
    | none => "Knowledge Base Article"),
   r.sourceUrl.getD "#",
   ⟨r.content.data.take 240⟩ ++
     (if 240 < r.content.data.length then String.singleton ellipsisChar else ""),
   r.score.getD 0,
   r.updatedAt⟩

/-- The citations array: a pure positional transform of the context
rows. -/
def citationsOf (rows : List KBRow) : List Citation := rows.mapIdx citationAt

/-- Case-insensitive containment: how each of the handler's fixed
`/literal text/i` regexes tests a string. -/
def icontains (pat s : String) : Bool :=
  (s.data.map jsToLower).tails.any
    (fun t => (litPrefix (pat.data.map jsToLower) t).isSome)

/-- The `noAnswerPatterns` list of the handler (each regex is a literal,
case-insensitive). -/
def noAnswerPatterns : List String :=
  ["I don't know", "I couldn't find that", "I'm not sure",
   "I don't have information", "not in our knowledge base",
   "I don't have enough information", "I can't answer", "I can't provide",
   "I'm unable to"]

/-- The `socialPatterns` list of the conversational handler. -/
def socialPatterns : List String :=
  ["how are you", "hello", "hi there", "good morning", "good afternoon",
   "good evening", "hey", "thanks", "thank you", "your name", "who are you",
   "what are you", "how is your day"]

/-- Whether the answer text matches any hedging pattern. -/
def isNonAnswer (answer : String) : Bool :=
  noAnswerPatterns.any (fun p => icontains p answer)

/-- Whether the query matches any social/greeting pattern. -/
def isSocialQuery (q : String) : Bool :=
  socialPatterns.any (fun p => icontains p q)

/-- The parsed JSON request body, with every field optional (a failed
body parse is the body with no fields). -/
structure AskBody where
  health : Option JsonValue
  query : Option JsonValue
  top_k : Option JsonValue
  w_semantic : Option JsonValue
  w_lexical : Option JsonValue
  w_trigram : Option JsonValue
  session_id : Option JsonValue
  max_history : Option JsonValue
deriving DecidableEq, Repr

/-- A body with no fields set (`req.json().catch(() => ({}))`). -/
def emptyBody : AskBody := ⟨none, none, none, none, none, none, none, none⟩

/-- The environment variables the handler reads (after the
`SERVICE_ROLE_KEY ?? SUPABASE_SERVICE_ROLE_KEY` coalesce). -/
structure EnvVars where
  supabaseUrl : String
  serviceRole : String
  openaiKey : String
deriving DecidableEq, Repr

/-- Oracles for the external services: the embedding payload's vector
(absent on service failure or malformed payload), the RPC outcome
(`error`, or `data` which may be a non-array), the chat payload's
message content (absent on service failure or malformed payload), and
the UUID `crypto.randomUUID()` would mint. -/
structure Oracles where
  embedding : Option (List ℚ)
  rpc : Except String (Option (List KBRow))
  chatContent : Option String
  genUuid : String
deriving Repr

/-- One external call, in the order the handler issues them. -/
inductive ExtCall
  | embed (input : String)
  | rpcSearch (qText : String) (k : JNum) (ws wl wt : ℚ)
  | chatComplete (messages : List ChatMsg)
  | insertTurn (sessionId : JsonValue) (role : String) (content : String)
deriving DecidableEq, Repr

/-- The successful response body
`{answer, citations, sources, needs_human_help, session_id}`. -/
structure AskSuccess where
  answer : String
  citations : List Citation
  sources : List KBRow
  needsHumanHelp : Bool
  sessionId : JsonValue
deriving DecidableEq, Repr

/-- The handler's HTTP outcome. -/
inductive Outcome
  | noContent (status : Nat)
  | err (status : Nat) (msg : String)
  | healthOk
  | ok (r : AskSuccess)
deriving DecidableEq, Repr

/-- The `topK` line of both handlers:
`Math.max(1, Math.min(Number(body?.top_k ?? 10), 25))`. -/
def topKOf (top_k : Option JsonValue) : JNum :=
  jsNumMax (.val 1) (jsNumMin (jsNumber (nullishOr top_k (.jnum 10))) (.val 25))

/-- A weight line: `Number.isFinite(body?.w) ? body.w : d` (no coercion
— only a JSON number passes `Number.isFinite`). -/
def weightOr (v : Option JsonValue) (d : ℚ) : ℚ :=
  match v with
  | some (.jnum q) => q
  | _ => d

/-- `body?.session_id || crypto.randomUUID()`. -/
def sessionIdOf (v : Option JsonValue) (uuid : String) : JsonValue :=
  match v with
  | some x => if jsTruthy x then x else .jstr uuid
  | none => .jstr uuid

/-- The basic handler's system prompt. -/
def basicSystemPrompt : String :=
  "You are a concise support assistant. Answer using only CONTEXT. If unsure, say you don't know. Always cite like [#n]."

/-- The conversational handler's TylerBot persona prompt (text as in the
source; interior blank-line indentation not reproduced). -/
def convSystemPrompt : String :=
  "You are TylerBot 5000, a friendly, helpful support assistant for a technology company that specializes in Control4 home automation systems.\n\n"
  ++ "Your primary goal is to provide accurate, helpful information based on the CONTEXT provided, but you should respond in a conversational, engaging manner.\n\n"
  ++ "Guidelines:\n- Be warm and personable in your tone\n- Use simple, clear language that non-technical users can understand\n- When appropriate, ask clarifying questions to better understand the user's issue\n- Acknowledge the user's frustration or confusion when they're having problems\n- Always cite your sources using [#n] notation when providing technical information\n- If you don't know a technical answer, be honest and offer to create a support ticket\n- Maintain a helpful, positive tone throughout the conversation\n\n"
  ++ "IMPORTANT: For basic social interactions (greetings, how are you, thanks, etc.), respond naturally without requiring CONTEXT.\n\n"
  ++ "For all technical questions about Control4, alarms, remotes, or system setup, use ONLY information from the provided CONTEXT and cite your sources.\n\n"
  ++ "Remember that you're speaking with end users who may not be technically savvy, so avoid jargon unless it's in the CONTEXT."

/-- The basic handler's fallback answer when the chat payload has no
content and retrieval returned rows. -/
def dontKnowMsg : String := "I don't know."

/-- The basic handler's fallback answer when the chat payload has no
content and retrieval returned nothing. -/
def couldntFindMsg : String := "I couldn't find that in our knowledge base."

/-- The conversational handler's fallback answer with rows. -/
def convUnsureMsg : String :=
  "I'm not sure about that, but I'd be happy to help with any Control4 or home automation questions you might have!"

/-- The conversational handler's fallback answer without rows. -/
def convNotFoundMsg : String :=
  "I couldn't find specific information about that in our knowledge base. Is there something else about your Control4 system I can help with?"

/-- The 400 response body's message. -/
def missingQueryMsg : String := "Missing 'query' (string)"

/-- `supabase/functions/ask-bot/index.ts`: the deployed `ask-bot`
handler as a pure function.  Returns the HTTP outcome and the trace of
external calls in issue order.  The chat-completion fetch is modelled at
the payload level: `orc.chatContent` is
`chatRes?.choices?.[0]?.message?.content`. -/
def askBotBasic (env : EnvVars) (method : String) (body : AskBody)
    (orc : Oracles) : Outcome × List ExtCall :=
  if method == "OPTIONS" then (.noContent 204, [])
  else if method != "POST" then (.err 405 "Use POST", [])
  else if body.health == some (.jbool true) then (.healthOk, [])
  else
    let topK := topKOf body.top_k
    let ws := weightOr body.w_semantic (11 / 20)
    let wl := weightOr body.w_lexical (7 / 20)
    let wt := weightOr body.w_trigram (1 / 10)
    let sessionIdVal := sessionIdOf body.session_id orc.genUuid
    match body.query with
    | some (.jstr q) =>
      if q == "" then (.err 400 missingQueryMsg, [])
      else if env.supabaseUrl == "" then
        (.err 500 "Missing SUPABASE_URL env", [])
      else if env.serviceRole == "" then
        (.err 500 "Missing SERVICE_ROLE_KEY env", [])
      else if env.openaiKey == "" then
        (.err 500 "Missing OPENAI_API_KEY env", [])
      else
        let qn := normalizeLocal q
        match orc.embedding with
        | none => (.err 502 "Failed to get embedding", [.embed qn])
        | some _emb =>
          match orc.rpc with
          | .error _ =>
            (.err 502 "Hybrid search failed",
             [.embed qn, .rpcSearch qn topK ws wl wt])
          | .ok rowsOpt =>
            let hits := rowsOpt.getD []
            let topForLLM := hits.take (jsSliceTake hits.length topK)
            let ctx := contextOf topForLLM
            let prompt := "USER QUESTION:\n" ++ q ++ "\n\nCONTEXT:\n" ++ ctx
            let msgs : List ChatMsg :=
              [⟨"system", basicSystemPrompt⟩, ⟨"user", prompt⟩]
            let answer :=
              match orc.chatContent with
              | some a => a
              | none => if hits.length ≠ 0 then dontKnowMsg else couldntFindMsg
            let nh := isNonAnswer answer || hits.length == 0
            let cits := citationsOf topForLLM
            let inserts : List ExtCall :=
              if jsTruthy sessionIdVal then
                [.insertTurn sessionIdVal "user" q,
                 .insertTurn sessionIdVal "assistant" answer]
              else []
            (.ok ⟨answer, cits, hits, nh, sessionIdVal⟩,
             [.embed qn, .rpcSearch qn topK ws wl wt, .chatComplete msgs]
               ++ inserts)
    | _ => (.err 400 missingQueryMsg, [])

/-- `maxHistoryMessages > 0` (false for NaN). -/
def jnumPos : JNum → Bool
  | .nan => false
  | .val q => 0 < q

/-- `.limit(maxHistoryMessages * 2)` as a row count: `⌊2q⌋` for a
positive numeric `maxHistoryMessages` (computed on numerator and
denominator so it evaluates by reduction). -/
def histLimitCount (mh : JNum) : Nat :=
  match mh with
  | .nan => 0
  | .val q => if q.num ≤ 0 then 0 else (2 * q.num).toNat / q.den

/-- The conversational (TylerBot) `ask-bot` handler as a pure function.
Beyond the basic handler's inputs it takes the session's stored
`chat_messages` rows in ascending-timestamp order (the fetch's `ORDER BY
timestamp ASC` applied before `LIMIT`) and whether the history fetch
succeeds; a failed fetch leaves the conversation history empty and the
request proceeds. -/
def askBotConv (env : EnvVars) (method : String) (body : AskBody)
    (orc : Oracles) (sessionTurns : List ChatMsg) (historyOk : Bool) :
    Outcome × List ExtCall :=
  if method == "OPTIONS" then (.noContent 204, [])
  else if method != "POST" then (.err 405 "Use POST", [])
  else if body.health == some (.jbool true) then (.healthOk, [])
  else
    let topK := topKOf body.top_k
    let ws := weightOr body.w_semantic (11 / 20)
    let wl := weightOr body.w_lexical (7 / 20)
    let wt := weightOr body.w_trigram (1 / 10)
    let sessionIdVal := sessionIdOf body.session_id orc.genUuid
    let mh := jsNumber (nullishOr body.max_history (.jnum 4))
    match body.query with
    | some (.jstr q) =>
      if q == "" then (.err 400 missingQueryMsg, [])
      else if env.supabaseUrl == "" then
        (.err 500 "Missing SUPABASE_URL env", [])
      else if env.serviceRole == "" then
        (.err 500 "Missing SERVICE_ROLE_KEY env", [])
      else if env.openaiKey == "" then
        (.err 500 "Missing OPENAI_API_KEY env", [])
      else
        let qn := normalizeLocal q
        match orc.embedding with
        | none => (.err 502 "Failed to get embedding", [.embed qn])
        | some _emb =>
          match orc.rpc with
          | .error _ =>
            (.err 502 "Hybrid search failed",
             [.embed qn, .rpcSearch qn topK ws wl wt])
          | .ok rowsOpt =>
            let hits := rowsOpt.getD []
            let topForLLM := hits.take (jsSliceTake hits.length topK)
            let ctx := contextOf topForLLM
            let fetchedRows := sessionTurns.take (histLimitCount mh)
            let conversationHistory : List ChatMsg :=
              if jsTruthy sessionIdVal ∧ jnumPos mh ∧ historyOk then
                fetchedRows
              else []
            let recent := jsSliceLast conversationHistory (histLimitCount mh)
            let msgs : List ChatMsg :=
              ⟨"system", convSystemPrompt⟩ ::
                ((if conversationHistory.length > 0 then recent else []) ++
                  [⟨"user", q ++ "\n\n" ++ "CONTEXT:\n" ++ ctx⟩])
            let answer :=
              match orc.chatContent with
              | some a => a
              | none => if hits.length ≠ 0 then convUnsureMsg else convNotFoundMsg
            let nh :=
              !isSocialQuery q && (isNonAnswer answer || hits.length == 0)
            let cits := citationsOf topForLLM
            let inserts : List ExtCall :=
              if jsTruthy sessionIdVal then
                [.insertTurn sessionIdVal "user" q,
                 .insertTurn sessionIdVal "assistant" answer]
              else []
            (.ok ⟨answer, cits, hits, nh, sessionIdVal⟩,
             [.embed qn, .rpcSearch qn topK ws wl wt, .chatComplete msgs]
               ++ inserts)
    | _ => (.err 400 missingQueryMsg, [])

/-- The value `askBotBasic` produces on the success path (POST, health
not `=== true`, a non-empty string query, all environment variables
set, an embedding payload, an RPC `data` result): spelled out so the
run lemma below can expose the handler's behaviour to the claim
theorems. -/
def basicSuccessResult (body : AskBody) (orc : Oracles) (q : String)
    (rowsOpt : Option (List KBRow)) : Outcome × List ExtCall :=
  let topK := topKOf body.top_k
  let hits := rowsOpt.getD []
  let topForLLM := hits.take (jsSliceTake hits.length topK)
  let answer :=
    match orc.chatContent with
    | some a => a
    | none => if hits.length ≠ 0 then dontKnowMsg else couldntFindMsg
  let sid := sessionIdOf body.session_id orc.genUuid
  (Outcome.ok
     ⟨answer, citationsOf topForLLM, hits,
      isNonAnswer answer || hits.length == 0, sid⟩,
   [.embed (normalizeLocal q),
    .rpcSearch (normalizeLocal q) topK (weightOr body.w_semantic (11 / 20))
      (weightOr body.w_lexical (7 / 20)) (weightOr body.w_trigram (1 / 10)),
    .chatComplete
      [⟨"system", basicSystemPrompt⟩,
       ⟨"user", "USER QUESTION:\n" ++ q ++ "\n\nCONTEXT:\n" ++
          contextOf topForLLM⟩]] ++
     (if jsTruthy sid then
        [.insertTurn sid "user" q, .insertTurn sid "assistant" answer]
      else []))

/-- The value `askBotConv` produces on the success path, analogous to
`basicSuccessResult`. -/
def convSuccessResult (body : AskBody) (orc : Oracles) (q : String)
    (rowsOpt : Option (List KBRow)) (sessionTurns : List ChatMsg)
    (historyOk : Bool) : Outcome × List ExtCall :=
  let topK := topKOf body.top_k
  let hits := rowsOpt.getD []
  let topForLLM := hits.take (jsSliceTake hits.length topK)
  let sid := sessionIdOf body.session_id orc.genUuid
  let mh := jsNumber (nullishOr body.max_history (.jnum 4))
  let fetchedRows := sessionTurns.take (histLimitCount mh)
  let conversationHistory : List ChatMsg :=
    if jsTruthy sid ∧ jnumPos mh ∧ historyOk then fetchedRows else []
  let recent := jsSliceLast conversationHistory (histLimitCount mh)
  let msgs : List ChatMsg :=
    ⟨"system", convSystemPrompt⟩ ::
      ((if conversationHistory.length > 0 then recent else []) ++
        [⟨"user", q ++ "\n\n" ++ "CONTEXT:\n" ++ contextOf topForLLM⟩])
  let answer :=
    match orc.chatContent with
    | some a => a
    | none => if hits.length ≠ 0 then convUnsureMsg else convNotFoundMsg
  (Outcome.ok
     ⟨answer, citationsOf topForLLM, hits,
      !isSocialQuery q && (isNonAnswer answer || hits.length == 0), sid⟩,
   [.embed (normalizeLocal q),
    .rpcSearch (normalizeLocal q) topK (weightOr body.w_semantic (11 / 20))
      (weightOr body.w_lexical (7 / 20)) (weightOr body.w_trigram (1 / 10)),
    .chatComplete msgs] ++
     (if jsTruthy sid then
        [.insertTurn sid "user" q, .insertTurn sid "assistant" answer]
      else []))

/-! ### Concrete fixtures used by witnesses and counterexamples. -/

/-- A fully configured environment. -/
def env0 : EnvVars := ⟨"https://example.supabase.co", "service-role", "sk-test"⟩

/-- A knowledge-base row fixture (score 823/1000, written with `mkRat`
so it evaluates by reduction). -/
def kbRow1 : KBRow :=
  ⟨some "1", "Pairing the remote: hold both buttons until the light blinks.",
   some (mkRat 823 1000), some "https://kb.example.com/1",
   some "Remote pairing", some "2024-01-01"⟩

/-- A request body holding only a query string. -/
def queryBody (q : String) : AskBody :=
  ⟨none, some (.jstr q), none, none, none, none, none, none⟩

/-- Oracles for a run whose retrieval returns `rows` and whose chat
payload carries `content`. -/
def orcWith (rows : List KBRow) (content : Option String) : Oracles :=
  ⟨some [1], .ok (some rows), content, "uuid-1"⟩

/-- Six stored turns (three user/assistant pairs) of a session, in
ascending timestamp order. -/
def turns3Pairs : List ChatMsg :=
  [⟨"user", "first question"⟩, ⟨"assistant", "first answer"⟩,
   ⟨"user", "second question"⟩, ⟨"assistant", "second answer"⟩,
   ⟨"user", "third question"⟩, ⟨"assistant", "third answer"⟩]

/-- A request body asking for one pair of history
(`max_history = 1`). -/
def historyBody1 : AskBody :=
  ⟨none, some (.jstr "and what about scenes?"), none, none, none, none,
   some (.jstr "sess-1"), some (.jnum 1)⟩

/-- An eleven-chunk table (with `k = 1`, the per-signal oversample is
`k*10 = 10`, so one chunk can fall outside every candidate list). -/
def kb11 : List Int := [1, 2, 3, 4, 5, 6, 7, 8, 9, 10, 11]

/-- Semantic candidates for the eleven-chunk fixture: the ten nearest
chunks, all with negative cosine similarity `1 − distance`. -/
def sem10 : List (Int × ℚ) :=
  [(1, -1 / 10), (2, -2 / 10), (3, -3 / 10), (4, -4 / 10), (5, -5 / 10),
   (6, -6 / 10), (7, -7 / 10), (8, -8 / 10), (9, -9 / 10), (10, -1)]

/-! ### Infrastructure for the idempotence analysis of `normalizeLocal`.

The second application of `normalizeLocal` re-runs the three rewrite
scans and the whitespace collapse over the first application's output;
the development below characterises when a scan leaves its input
unchanged (`okAt` and `replaceGo_fixed`), and which rewrite
opportunities (`OccG`) can survive the pipeline. -/

/-- Every position of `s` (with running previous-character context
`prev`) at which the matcher fires does so with matched text exactly
equal to the replacement — the condition under which a global replace
is the identity. -/
def okAt (m : Matcher) (r : Str) : Option Char → Str → Bool
  | _, [] => true
  | prev, c :: cs =>
    (match m prev (c :: cs) with
     | some (mt, _) => mt == r
     | none => true) && okAt m r (some c) cs

/-- A matcher `decomposes`: a match splits the input into the matched
text (nonempty) and the rest. -/
def Decomposes (m : Matcher) : Prop :=
  ∀ p s mt rest, m p s = some (mt, rest) → s = mt ++ rest ∧ mt ≠ []

/-- "Word-boundary safe before": the boundary condition `\b` before a
word character, computed from the fused context (last of `pre`, else
the running previous character). -/
def bCtx (o : Option Char) : Bool :=
  match o with
  | none => true
  | some c => !isJsWord c

/-- The shape of a rewrite opportunity: an optional boundary-before
requirement, two literals with a whitespace gap between them (which
must be nonempty unless `gapOpt`), and a boundary after. -/
structure PatShape where
  bneed : Bool
  lit1 : Str
  lit2 : Str
  gapOpt : Bool

/-- An occurrence of the shape `P` somewhere in `s`, with running
previous-character context `prev` for the position before `s`. -/
def OccG (P : PatShape) (prev : Option Char) (s : Str) : Prop :=
  ∃ pre gap rest, s = pre ++ P.lit1 ++ gap ++ P.lit2 ++ rest ∧
    (∀ c ∈ gap, isJsWs c = true) ∧ (P.gapOpt = true ∨ gap ≠ []) ∧
    (P.bneed = false ∨ bCtx (Option.or pre.getLast? prev) = true) ∧
    jsBoundaryAfter rest = true

/-- The proper (non-identity) rewrite opportunity of `control\s*4\b`:
a nonempty whitespace gap between "control" and the bounded "4". -/
def shapeC4 : PatShape := ⟨false, "control".data, ['4'], false⟩

/-- The proper rewrite opportunity of `\b4\s*sight\b`. -/
def shapeSight : PatShape := ⟨true, ['4'], "sight".data, false⟩

/-- The proper gap form of `\bos\s*v?3\b` without the `v`. -/
def shapeOs3 : PatShape := ⟨true, "os".data, ['3'], false⟩

/-- The proper form of `\bos\s*v?3\b` with the `v` (any gap, including
none: matching "osv3" still rewrites to "os3"). -/
def shapeOsV3 : PatShape := ⟨true, "os".data, ['v', '3'], true⟩

/-- No two adjacent whitespace characters. -/
def noAdjWs : Str → Bool
  | [] => true
  | c :: cs =>
    (match cs with
     | [] => true
     | c2 :: _ => !(isJsWs c && isJsWs c2)) && noAdjWs cs

/-- Every whitespace character is a plain space. -/
def allWsSpace (s : Str) : Bool := s.all fun c => !isJsWs c || (c == ' ')

/-- ASCII characters that survive case folding unchanged: below 128 and
not an uppercase letter. -/
def lowSafe (c : Char) : Bool := c.toNat < 128 && !isUpperAscii c

/-- Wordness of the character before the current position (`none` at the
start of the input counts as non-word). -/
def wordCtx (o : Option Char) : Bool :=
  match o with
  | none => false
  | some c => isJsWord c

/-- Every character of the list is JS whitespace. -/
def wsStr (w : Str) : Bool := w.all isJsWs

/-- Decidable check: `q` is a prefix of `lit1 ++ gap ++ lit2` for some
whitespace gap admissible for the shape `P`. -/
def tPrefixOK (P : PatShape) (q : Str) : Bool :=
  q.isPrefixOf P.lit1 ||
  (P.lit1.isPrefixOf q &&
    (wsStr (q.drop P.lit1.length) ||
     (List.range (q.length - P.lit1.length + 1)).any fun j =>
       wsStr ((q.drop P.lit1.length).take j) &&
       ((q.drop P.lit1.length).drop j).isPrefixOf P.lit2 &&
       (P.gapOpt || decide (j ≠ 0))))

/-- Decidable check: `q` is a suffix of `lit1 ++ gap ++ lit2` for some
whitespace gap admissible for the shape `P`. -/
def tSuffixOK (P : PatShape) (q : Str) : Bool :=
  q.isSuffixOf P.lit2 ||
  (P.lit2.isSuffixOf q &&
    (wsStr (q.take (q.length - P.lit2.length)) ||
     (List.range (q.length - P.lit2.length + 1)).any fun j =>
       wsStr ((q.take (q.length - P.lit2.length)).drop j) &&
       ((q.take (q.length - P.lit2.length)).take j).isSuffixOf P.lit1 &&
       (P.gapOpt || decide (j ≠ q.length - P.lit2.length))))

/-- Decidable check: `q` occurs at a strictly positive offset inside
`lit1 ++ gap ++ lit2` for some admissible whitespace gap. -/
def tMidOK (P : PatShape) (q : Str) : Bool :=
  (P.lit1.tails.any fun p1 =>
    decide (p1 ≠ P.lit1) && tPrefixOK ⟨P.bneed, p1, P.lit2, P.gapOpt⟩ q) ||
  tPrefixOK ⟨P.bneed, [], P.lit2, true⟩ q ||
  (P.lit2.tails.any fun p2 => q.isPrefixOf p2)

/-- Structural closed form of the whitespace collapse: every maximal run
of JS whitespace becomes a single space (the space is emitted at the last
character of the run). -/
def collapse : Str → Str
  | [] => []
  | c :: cs =>
    if isJsWs c then
      match cs with
      | [] => [' ']
      | c2 :: _ => if isJsWs c2 then collapse cs else ' ' :: collapse cs
    else c :: collapse cs

/-! ## Theorems -/

theorem litPrefix_eq_some {pat s rest : Str}
    (h : litPrefix pat s = some rest) : s = pat ++ rest := by
  induction pat generalizing s with
  | nil => simpa [litPrefix] using h
  | cons p ps ih =>
    cases s with
    | nil => simp [litPrefix] at h
    | cons c cs =>
      by_cases hpc : p = c
      · subst hpc
        simp only [litPrefix, beq_self_eq_true, if_true] at h
        simpa using ih h
      · simp [litPrefix, hpc] at h

theorem litPrefix_append (pat rest : Str) :
    litPrefix pat (pat ++ rest) = some rest := by
  induction pat with
  | nil => rfl
  | cons p ps ih => simp [litPrefix, ih]

/-- **C8** (counterexample).  `normalizeLocal` is not idempotent: the
input "™" (U+2122) lowercases to itself, NFKD-decomposes to the
uppercase pair "TM" — produced after the lowercasing step — so the
first application returns "TM" and the second lowercases it to
"tm". -/
theorem c8_not_idempotent :
    normalizeLocal ⟨[tmChar]⟩ = "TM" ∧
      normalizeLocal (normalizeLocal ⟨[tmChar]⟩) = "tm" ∧
      normalizeLocal (normalizeLocal ⟨[tmChar]⟩) ≠
        normalizeLocal ⟨[tmChar]⟩ := by
  refine ⟨by decide, by decide, by decide⟩

theorem matchControl4_spec {p : Option Char} {s mt rest : Str}
    (h : matchControl4 p s = some (mt, rest)) :
    ∃ gap, mt = "control".data ++ gap ++ ['4'] ∧
      (∀ c ∈ gap, isJsWs c = true) ∧ s = mt ++ rest ∧
      jsBoundaryAfter rest = true := by
  unfold matchControl4 at h
  cases h1 : litPrefix "control".data s with
  | none => rw [h1] at h; exact absurd h (by simp)
  | some r1 =>
    rw [h1] at h
    dsimp only at h
    have hs := litPrefix_eq_some h1
    cases h2 : r1.dropWhile isJsWs with
    | nil => rw [h2] at h; exact absurd h (by simp)
    | cons c4 r3 =>
      rw [h2] at h
      dsimp only at h
      by_cases hc : c4 = '4' ∧ jsBoundaryAfter r3 = true
      · rw [if_pos hc] at h
        obtain ⟨hmt, hrest⟩ := Prod.mk.injEq .. ▸ Option.some.inj h
        refine ⟨r1.takeWhile isJsWs, hmt.symm, ?_, ?_, hrest ▸ hc.2⟩
        · intro c hc'; exact List.mem_takeWhile_imp hc'
        · have hr1 : r1 = r1.takeWhile isJsWs ++ (c4 :: r3) := by
            conv_lhs => rw [← List.takeWhile_append_dropWhile isJsWs r1, h2]
          rw [hs, hr1, ← hmt, ← hrest, hc.1]
          simp
      · rw [if_neg hc] at h; exact absurd h (by simp)

theorem takeWhile_ws_append {gap : Str} (t : Str)
    (hg : ∀ c ∈ gap, isJsWs c = true)
    (ht : ∀ c, t.head? = some c → isJsWs c = false) :
    (gap ++ t).takeWhile isJsWs = gap ∧ (gap ++ t).dropWhile isJsWs = t := by
  induction gap with
  | nil =>
    cases t with
    | nil => exact ⟨rfl, rfl⟩
    | cons c cs =>
      have := ht c rfl
      constructor <;> simp [List.takeWhile, List.dropWhile, this]
  | cons g gs ih =>
    have hgws : isJsWs g = true := hg g (by simp)
    have ih' := ih (fun c hc => hg c (by simp [hc]))
    constructor <;>
      simp [List.takeWhile, List.dropWhile, hgws, ih'.1, ih'.2]

theorem match4Sight_spec {p : Option Char} {s mt rest : Str}
    (h : match4Sight p s = some (mt, rest)) :
    ∃ gap, mt = '4' :: gap ++ "sight".data ∧
      (∀ c ∈ gap, isJsWs c = true) ∧ s = mt ++ rest ∧
      jsBoundaryAfter rest = true ∧ jsBoundaryBefore p = true := by
  unfold match4Sight at h
  by_cases hb : jsBoundaryBefore p = true
  · rw [if_pos hb] at h
    cases s with
    | nil => exact absurd h (by simp)
    | cons c r1 =>
      dsimp only at h
      by_cases hc : c = '4'
      · rw [if_pos hc] at h
        cases h2 : litPrefix "sight".data (r1.dropWhile isJsWs) with
        | none => rw [h2] at h; exact absurd h (by simp)
        | some r3 =>
          rw [h2] at h
          dsimp only at h
          by_cases hb2 : jsBoundaryAfter r3 = true
          · rw [if_pos hb2] at h
            obtain ⟨hmt, hrest⟩ := Prod.mk.injEq .. ▸ Option.some.inj h
            have hd := litPrefix_eq_some h2
            refine ⟨r1.takeWhile isJsWs, hmt.symm, ?_, ?_, hrest ▸ hb2, hb⟩
            · intro c' hc'; exact List.mem_takeWhile_imp hc'
            · have hr1 : r1 = r1.takeWhile isJsWs ++
                  ("sight".data ++ r3) := by
                conv_lhs =>
                  rw [← List.takeWhile_append_dropWhile isJsWs r1, hd]
              rw [hc, hr1, ← hmt, ← hrest]
              simp
          · rw [if_neg hb2] at h; exact absurd h (by simp)
      · rw [if_neg hc] at h; exact absurd h (by simp)
  · rw [if_neg hb] at h; exact absurd h (by simp)

theorem matchOsV3_spec {p : Option Char} {s mt rest : Str}
    (h : matchOsV3 p s = some (mt, rest)) :
    ∃ gap, (mt = "os".data ++ gap ++ ['3'] ∨
        mt = "os".data ++ gap ++ ['v', '3']) ∧
      (∀ c ∈ gap, isJsWs c = true) ∧ s = mt ++ rest ∧
      jsBoundaryAfter rest = true ∧ jsBoundaryBefore p = true := by
  unfold matchOsV3 at h
  by_cases hb : jsBoundaryBefore p = true
  · rw [if_pos hb] at h
    cases h1 : litPrefix "os".data s with
    | none => rw [h1] at h; exact absurd h (by simp)
    | some r1 =>
      rw [h1] at h
      dsimp only at h
      have hs := litPrefix_eq_some h1
      have hr1 : r1 = r1.takeWhile isJsWs ++ r1.dropWhile isJsWs :=
        (List.takeWhile_append_dropWhile isJsWs r1).symm
      cases h2 : r1.dropWhile isJsWs with
      | nil => rw [h2] at h; exact absurd h (by simp)
      | cons c r2 =>
        rw [h2] at h
        dsimp only at h
        by_cases hv : c = 'v'
        · rw [if_pos hv] at h
          cases r2 with
          | nil => exact absurd h (by simp)
          | cons c2 r3 =>
            dsimp only at h
            by_cases hc2 : c2 = '3' ∧ jsBoundaryAfter r3 = true
            · rw [if_pos hc2] at h
              obtain ⟨hmt, hrest⟩ := Prod.mk.injEq .. ▸ Option.some.inj h
              refine ⟨r1.takeWhile isJsWs, Or.inr hmt.symm, ?_, ?_,
                hrest ▸ hc2.2, hb⟩
              · intro c' hc'; exact List.mem_takeWhile_imp hc'
              · rw [hs, hr1, h2, hv, hc2.1, ← hmt, ← hrest]
                simp
            · rw [if_neg hc2] at h; exact absurd h (by simp)
        · rw [if_neg hv] at h
          by_cases hc3 : c = '3' ∧ jsBoundaryAfter r2 = true
          · rw [if_pos hc3] at h
            obtain ⟨hmt, hrest⟩ := Prod.mk.injEq .. ▸ Option.some.inj h
            refine ⟨r1.takeWhile isJsWs, Or.inl hmt.symm, ?_, ?_,
              hrest ▸ hc3.2, hb⟩
            · intro c' hc'; exact List.mem_takeWhile_imp hc'
            · rw [hs, hr1, h2, hc3.1, ← hmt, ← hrest]
              simp
          · rw [if_neg hc3] at h; exact absurd h (by simp)
  · rw [if_neg hb] at h; exact absurd h (by simp)

theorem head_dropWhile_false {α : Type} (p : α → Bool) (l : List α)
    {c : α} (h : (l.dropWhile p).head? = some c) : p c = false := by
  induction l with
  | nil => simp [List.dropWhile] at h
  | cons a t ih =>
    by_cases hp : p a = true
    · rw [List.dropWhile_cons_of_pos hp] at h; exact ih h
    · rw [List.dropWhile_cons_of_neg hp] at h
      simp only [List.head?_cons, Option.some.injEq] at h
      subst h
      exact Bool.eq_false_iff.mpr hp

theorem matchJsWsRun_spec {p : Option Char} {s mt rest : Str}
    (h : matchJsWsRun p s = some (mt, rest)) :
    mt = s.takeWhile isJsWs ∧ rest = s.dropWhile isJsWs ∧ mt ≠ [] ∧
      (∀ c ∈ mt, isJsWs c = true) ∧
      (∀ c, rest.head? = some c → isJsWs c = false) ∧ s = mt ++ rest := by
  unfold matchJsWsRun at h
  cases s with
  | nil => exact absurd h (by simp)
  | cons c cs =>
    dsimp only at h
    by_cases hc : isJsWs c = true
    · rw [if_pos hc] at h
      obtain ⟨hmt, hrest⟩ := Prod.mk.injEq .. ▸ Option.some.inj h
      refine ⟨hmt.symm, hrest.symm, ?_, ?_, ?_, ?_⟩
      · rw [← hmt]; simp [List.takeWhile, hc]
      · intro c' hc'; rw [← hmt] at hc'
        exact List.mem_takeWhile_imp hc'
      · intro c' hc'
        rw [← hrest] at hc'
        exact head_dropWhile_false isJsWs (c :: cs) hc'
      · rw [← hmt, ← hrest]
        exact (List.takeWhile_append_dropWhile isJsWs (c :: cs)).symm
    · rw [if_neg hc] at h; exact absurd h (by simp)

theorem matchControl4_decomp : Decomposes matchControl4 := by
  intro p s mt rest h
  obtain ⟨gap, hmt, _, hs, _⟩ := matchControl4_spec h
  exact ⟨hs, by simp [hmt]⟩

theorem match4Sight_decomp : Decomposes match4Sight := by
  intro p s mt rest h
  obtain ⟨gap, hmt, _, hs, _⟩ := match4Sight_spec h
  exact ⟨hs, by simp [hmt]⟩

theorem matchOsV3_decomp : Decomposes matchOsV3 := by
  intro p s mt rest h
  obtain ⟨gap, hmt, _, hs, _⟩ := matchOsV3_spec h
  rcases hmt with hmt | hmt <;> exact ⟨hs, by simp [hmt]⟩

theorem matchJsWsRun_decomp : Decomposes matchJsWsRun := by
  intro p s mt rest h
  obtain ⟨_, _, hne, _, _, hs⟩ := matchJsWsRun_spec h
  exact ⟨hs, hne⟩

theorem or_getLast_cons (c : Char) (pre : Str) (prev : Option Char) :
    Option.or (c :: pre).getLast? prev = Option.or pre.getLast? (some c) := by
  cases pre with
  | nil => rfl
  | cons p ps =>
    rw [List.getLast?_cons_cons]
    cases hgl : (p :: ps).getLast? with
    | none => simp at hgl
    | some x => rfl

theorem okAt_intro (m : Matcher) (r : Str) (s : Str) (prev : Option Char)
    (h : ∀ pre suf mt rest, s = pre ++ suf →
      m (Option.or pre.getLast? prev) suf = some (mt, rest) → mt = r) :
    okAt m r prev s = true := by
  induction s generalizing prev with
  | nil => rfl
  | cons c cs ih =>
    rw [okAt, Bool.and_eq_true]
    constructor
    · cases hm : m prev (c :: cs) with
      | none => rfl
      | some pr =>
        have := h [] (c :: cs) pr.1 pr.2 rfl (by simpa using hm)
        simp [this]
    · refine ih (some c) ?_
      intro pre suf mt rest hsplit hm
      refine h (c :: pre) suf mt rest (by simp [hsplit]) ?_
      rw [or_getLast_cons]
      exact hm

theorem okAt_append_right (m : Matcher) (r : Str) {xs ys : Str}
    {prev : Option Char} (h : okAt m r prev (xs ++ ys) = true)
    (hne : xs ≠ []) : okAt m r xs.getLast? ys = true := by
  induction xs generalizing prev with
  | nil => exact absurd rfl hne
  | cons x xt ih =>
    rw [List.cons_append, okAt, Bool.and_eq_true] at h
    cases xt with
    | nil => simpa using h.2
    | cons x2 t =>
      rw [List.getLast?_cons_cons]
      exact ih h.2 (by simp)

theorem replaceGo_fixed (m : Matcher) (r : Str) (hd : Decomposes m) :
    ∀ (fuel : Nat) (prev : Option Char) (s : Str), s.length ≤ fuel →
      okAt m r prev s = true → replaceGo m r fuel prev s = s := by
  intro fuel
  induction fuel with
  | zero => intro prev s _ _; rfl
  | succ n ih =>
    intro prev s hlen hok
    cases s with
    | nil => rfl
    | cons c cs =>
      rw [replaceGo]
      cases hm : m prev (c :: cs) with
      | none =>
        rw [okAt, Bool.and_eq_true, hm] at hok
        rw [ih (some c) cs (by simpa using Nat.le_of_succ_le_succ hlen)
          hok.2]
      | some pr =>
        obtain ⟨mt, rest⟩ := pr
        dsimp only
        obtain ⟨hs, hne⟩ := hd prev (c :: cs) mt rest hm
        have hmtr : mt = r := by
          rw [okAt, Bool.and_eq_true, hm] at hok
          simpa using hok.1
        have hlen2 : rest.length ≤ n := by
          have h1 : (c :: cs).length = mt.length + rest.length := by
            rw [hs, List.length_append]
          have h2 : 1 ≤ mt.length :=
            Nat.one_le_iff_ne_zero.mpr (by simpa using hne)
          omega
        have hok2 : okAt m r mt.getLast? rest = true := by
          rw [hs] at hok
          exact okAt_append_right m r hok hne
        rw [ih mt.getLast? rest hlen2 hok2, ← hmtr, ← hs]

theorem bCtx_eq_boundary (o : Option Char) :
    jsBoundaryBefore o = bCtx o := by
  cases o <;> rfl

theorem noAdjWs_tail {x : Char} {l : Str}
    (h : noAdjWs (x :: l) = true) : noAdjWs l = true := by
  cases l with
  | nil => rfl
  | cons y t =>
    have h2 : (!(isJsWs x && isJsWs y) && noAdjWs (y :: t)) = true := h
    simp only [Bool.and_eq_true] at h2
    exact h2.2

theorem noAdjWs_split {s a b : Str} {c1 c2 : Char}
    (h : noAdjWs s = true) (hs : s = a ++ c1 :: c2 :: b) :
    ¬(isJsWs c1 = true ∧ isJsWs c2 = true) := by
  subst hs
  induction a with
  | nil =>
    rw [List.nil_append, noAdjWs, Bool.and_eq_true] at h
    intro hc
    simp [hc.1, hc.2] at h
  | cons x xt ih =>
    exact ih (noAdjWs_tail (by rwa [List.cons_append] at h))

theorem okAt_control4_of_noOcc {s : Str} (h : ¬ OccG shapeC4 none s) :
    okAt matchControl4 "control4".data none s = true := by
  refine okAt_intro _ _ _ _ ?_
  intro pre suf mt rest hsplit hm
  obtain ⟨gap, hmt, hgws, hsuf, hb⟩ := matchControl4_spec hm
  by_cases hgap : gap = []
  · rw [hmt, hgap]; rfl
  · exact absurd
      ⟨pre, gap, rest, by rw [hsplit, hsuf, hmt]; simp [shapeC4], hgws,
        Or.inr hgap, Or.inl rfl, hb⟩ h

theorem okAt_sight_of_noOcc {s : Str} (h : ¬ OccG shapeSight none s) :
    okAt match4Sight "4sight".data none s = true := by
  refine okAt_intro _ _ _ _ ?_
  intro pre suf mt rest hsplit hm
  obtain ⟨gap, hmt, hgws, hsuf, hb, hbb⟩ := match4Sight_spec hm
  by_cases hgap : gap = []
  · rw [hmt, hgap]; rfl
  · refine absurd
      ⟨pre, gap, rest, by rw [hsplit, hsuf, hmt]; simp [shapeSight], hgws,
        Or.inr hgap, Or.inr ?_, hb⟩ h
    rw [← bCtx_eq_boundary]
    exact hbb

theorem okAt_osv3_of_noOcc {s : Str} (h3 : ¬ OccG shapeOs3 none s)
    (hv : ¬ OccG shapeOsV3 none s) :
    okAt matchOsV3 "os3".data none s = true := by
  refine okAt_intro _ _ _ _ ?_
  intro pre suf mt rest hsplit hm
  obtain ⟨gap, hmt, hgws, hsuf, hb, hbb⟩ := matchOsV3_spec hm
  rcases hmt with hmt | hmt
  · by_cases hgap : gap = []
    · rw [hmt, hgap]; rfl
    · refine absurd
        ⟨pre, gap, rest, by rw [hsplit, hsuf, hmt]; simp [shapeOs3], hgws,
          Or.inr hgap, Or.inr ?_, hb⟩ h3
      rw [← bCtx_eq_boundary]
      exact hbb
  · refine absurd
      ⟨pre, gap, rest, by rw [hsplit, hsuf, hmt]; simp [shapeOsV3], hgws,
        Or.inl rfl, Or.inr ?_, hb⟩ hv
    rw [← bCtx_eq_boundary]
    exact hbb

theorem okAt_wsrun_of_clean {s : Str} (hadj : noAdjWs s = true)
    (hsp : allWsSpace s = true) :
    okAt matchJsWsRun [' '] none s = true := by
  refine okAt_intro _ _ _ _ ?_
  intro pre suf mt rest hsplit hm
  obtain ⟨hmt, hrest, hne, hws, _, hsuf⟩ := matchJsWsRun_spec hm
  cases suf with
  | nil => simp [List.takeWhile] at hmt; exact absurd hmt hne
  | cons c cs =>
    have hcws : isJsWs c = true := by
      by_contra hcf
      rw [List.takeWhile_cons_of_neg (by simpa using hcf)] at hmt
      exact hne hmt
    have hcsp : c = ' ' := by
      have hcmem : c ∈ s := by rw [hsplit]; simp
      have := (List.all_eq_true.mp hsp) c hcmem
      simpa [hcws] using this
    have htail : cs.takeWhile isJsWs = [] := by
      cases cs with
      | nil => rfl
      | cons c2 cs2 =>
        by_cases h2 : isJsWs c2 = true
        · exact absurd ⟨hcws, h2⟩
            (noAdjWs_split hadj (by rw [hsplit]))
        · rw [List.takeWhile_cons_of_neg (by simpa using h2)]
    rw [List.takeWhile_cons_of_pos hcws, htail] at hmt
    rw [hmt, hcsp]

theorem matchControl4_complete (p : Option Char) (gap rest : Str)
    (hg : ∀ c ∈ gap, isJsWs c = true) (hb : jsBoundaryAfter rest = true) :
    matchControl4 p ("control".data ++ (gap ++ '4' :: rest)) =
      some ("control".data ++ gap ++ ['4'], rest) := by
  have htw := takeWhile_ws_append ('4' :: rest) hg
    (fun c hc => by simp at hc; subst hc; decide)
  unfold matchControl4
  rw [litPrefix_append]
  dsimp only
  rw [htw.2]
  dsimp only
  rw [if_pos ⟨rfl, hb⟩, htw.1]

theorem match4Sight_complete (p : Option Char) (gap rest : Str)
    (hg : ∀ c ∈ gap, isJsWs c = true) (hb : jsBoundaryAfter rest = true)
    (hbb : jsBoundaryBefore p = true) :
    match4Sight p ('4' :: (gap ++ ("sight".data ++ rest))) =
      some ('4' :: gap ++ "sight".data, rest) := by
  have htw := takeWhile_ws_append ("sight".data ++ rest) hg
    (fun c hc => by simp at hc; subst hc; decide)
  unfold match4Sight
  rw [if_pos hbb]
  dsimp only
  rw [if_pos rfl, htw.2, litPrefix_append]
  dsimp only
  rw [if_pos hb, htw.1]

theorem matchOsV3_complete_v (p : Option Char) (gap rest : Str)
    (hg : ∀ c ∈ gap, isJsWs c = true) (hb : jsBoundaryAfter rest = true)
    (hbb : jsBoundaryBefore p = true) :
    matchOsV3 p ("os".data ++ (gap ++ 'v' :: '3' :: rest)) =
      some ("os".data ++ gap ++ ['v', '3'], rest) := by
  have htw := takeWhile_ws_append ('v' :: '3' :: rest) hg
    (fun c hc => by simp at hc; subst hc; decide)
  unfold matchOsV3
  rw [if_pos hbb, litPrefix_append]
  dsimp only
  rw [htw.2]
  dsimp only
  rw [if_pos rfl]
  rw [if_pos ⟨rfl, hb⟩, htw.1]

theorem matchOsV3_complete_3 (p : Option Char) (gap rest : Str)
    (hg : ∀ c ∈ gap, isJsWs c = true) (hb : jsBoundaryAfter rest = true)
    (hbb : jsBoundaryBefore p = true) :
    matchOsV3 p ("os".data ++ (gap ++ '3' :: rest)) =
      some ("os".data ++ gap ++ ['3'], rest) := by
  have htw := takeWhile_ws_append ('3' :: rest) hg
    (fun c hc => by simp at hc; subst hc; decide)
  unfold matchOsV3
  rw [if_pos hbb, litPrefix_append]
  dsimp only
  rw [htw.2]
  dsimp only
  rw [if_neg (by decide), if_pos ⟨rfl, hb⟩, htw.1]

/-- **C4** (code bug).  The query-time normalization `normalizeLocal`
and the index-time normalization `normalize_text` are not the same
function: on the input consisting of a tab and "a", the edge function
trims the tab (JS `trim` strips all whitespace) and returns "a", while
the SQL function trims only spaces, then collapses the leading tab to a
space, returning " a". -/
theorem c4_normalization_divergence :
    normalizeLocal "\ta" = "a" ∧ normalizeText "\ta" = " a" ∧
    normalizeLocal "\ta" ≠ normalizeText "\ta" := by
  refine ⟨by decide, by decide, by decide⟩

/-- **C9** (counterexample).  A `top_k` value that coerces to NaN (for
example the string "abc") defeats the clamp: `Math.max(1, Math.min(NaN,
25))` is NaN, and the handler passes that NaN as `k` to the retrieval
call, so the value passed to retrieval does not satisfy 1 ≤ k ≤ 25. -/
theorem c9_nan_escapes_clamp :
    topKOf (some (.jstr "abc")) = .nan ∧
    (askBotBasic env0 "POST"
        ⟨none, some (.jstr "remote will not pair"), some (.jstr "abc"),
         none, none, none, none, none⟩
        (orcWith [] none)).2 =
      [.embed "remote will not pair",
       .rpcSearch "remote will not pair" .nan (11 / 20) (7 / 20) (1 / 10),
       .chatComplete
         [⟨"system", basicSystemPrompt⟩,
          ⟨"user", "USER QUESTION:\nremote will not pair\n\nCONTEXT:\n"⟩],
       .insertTurn (.jstr "uuid-1") "user" "remote will not pair",
       .insertTurn (.jstr "uuid-1") "assistant" couldntFindMsg] := by
  exact ⟨rfl, rfl⟩

/-- **C9** (amended).  The effective top-K is 10 when `top_k` is absent
or null; whenever the supplied `top_k` coerces to a number `q` the
effective top-K is `q` clamped to `[1, 25]` and lies in that interval;
but a `top_k` coercing to NaN yields NaN rather than a clamped value. -/
theorem c9_topk_clamped (tk : Option JsonValue) :
    (tk = none → topKOf tk = .val 10) ∧
    (tk = some .jnull → topKOf tk = .val 10) ∧
    (∀ q : ℚ, jsNumber (nullishOr tk (.jnum 10)) = .val q →
      topKOf tk = .val (max 1 (min q 25)) ∧
        1 ≤ max 1 (min q 25) ∧ max 1 (min q 25) ≤ 25) ∧
    (jsNumber (nullishOr tk (.jnum 10)) = .nan → topKOf tk = .nan) := by
  refine ⟨?_, ?_, ?_, ?_⟩
  · rintro rfl; decide
  · rintro rfl; decide
  · intro q hq
    refine ⟨?_, le_max_left 1 _, max_le (by norm_num) (min_le_right q 25)⟩
    unfold topKOf
    rw [hq]
    rfl
  · intro hq
    unfold topKOf
    rw [hq]
    rfl

/-- **C9** (witness).  `top_k = 7` is clamped into `[1, 25]`. -/
theorem c9_topk_clamped_witness :
    topKOf (some (.jnum 7)) = .val (max 1 (min 7 25)) ∧
      (1 : ℚ) ≤ max 1 (min 7 25) ∧ (max 1 (min (7 : ℚ) 25) ≤ 25) :=
  (c9_topk_clamped (some (.jnum 7))).2.2.1 7 rfl

/-- **C10.**  A POST whose body has `health === true` short-circuits to
HTTP 200 `{ok: true}` with no external calls — before the missing-query
validation, so a body with no query is not rejected with a 400. -/
theorem c10_health_shortcircuit (env : EnvVars) (body : AskBody)
    (orc : Oracles) (h : body.health = some (.jbool true)) :
    askBotBasic env "POST" body orc = (.healthOk, []) := by
  unfold askBotBasic
  rw [if_neg (by decide), if_neg (by decide)]
  rw [if_pos (by rw [h]; rfl)]

/-- **C10** (witness).  A body carrying only `health: true` — no query
at all — gets the 200 `{ok: true}` response and triggers no external
call. -/
theorem c10_health_shortcircuit_witness :
    askBotBasic env0 "POST"
      ⟨some (.jbool true), none, none, none, none, none, none, none⟩
      (orcWith [] none) = (.healthOk, []) :=
  c10_health_shortcircuit env0 _ _ rfl

/-- The fused table of the two-chunk tied fixture evaluates to two rows
tied at fused score 11/40. -/
theorem fusedPairTableEq :
    fusedTable [1, 2] [(1, 1 / 2), (2, 1 / 2)] [] []
        (11 / 20) (7 / 20) (1 / 10) =
      [⟨1, 11 / 40, 1 / 2, 0, 0⟩, ⟨2, 11 / 40, 1 / 2, 0, 0⟩] := by
  norm_num [fusedTable, signalScore]

/-- On the tied fixture, the descending-id arrangement is a possible
`search_kb_hybrid` result set. -/
theorem hybridPairDescPossible :
    searchKbHybridOut [1, 2] [(1, 1 / 2), (2, 1 / 2)] [] []
      (11 / 20) (7 / 20) (1 / 10) 2
      [⟨2, 11 / 40, 1 / 2, 0, 0⟩, ⟨1, 11 / 40, 1 / 2, 0, 0⟩] := by
  refine ⟨[⟨2, 11 / 40, 1 / 2, 0, 0⟩, ⟨1, 11 / 40, 1 / 2, 0, 0⟩], ?_, ?_, rfl⟩
  · rw [fusedPairTableEq]
    exact List.Perm.swap _ _ _
  · simp [scoreSortedDesc, List.pairwise_cons]

/-- On the tied fixture, the ascending-id arrangement is also a
possible `search_kb_hybrid` result set. -/
theorem hybridPairAscPossible :
    searchKbHybridOut [1, 2] [(1, 1 / 2), (2, 1 / 2)] [] []
      (11 / 20) (7 / 20) (1 / 10) 2
      [⟨1, 11 / 40, 1 / 2, 0, 0⟩, ⟨2, 11 / 40, 1 / 2, 0, 0⟩] := by
  refine ⟨[⟨1, 11 / 40, 1 / 2, 0, 0⟩, ⟨2, 11 / 40, 1 / 2, 0, 0⟩], ?_, ?_, rfl⟩
  · rw [fusedPairTableEq]
  · simp [scoreSortedDesc, List.pairwise_cons]

/-- **C2** (counterexample).  `search_kb_hybrid` orders only by `score
DESC` with no tie-break: for two candidates tied at fused score 11/40,
the output with ids in descending order is a possible result set (so
ties are not broken by ascending passage id), and the output with ids
in ascending order is also possible (so repeated calls on the same
inputs need not return the same ordering). -/
theorem c2_no_tiebreak_counterexample :
    searchKbHybridOut [1, 2] [(1, 1 / 2), (2, 1 / 2)] [] []
        (11 / 20) (7 / 20) (1 / 10) 2
        [⟨2, 11 / 40, 1 / 2, 0, 0⟩, ⟨1, 11 / 40, 1 / 2, 0, 0⟩] ∧
      ¬ tieBreakAscending
        [⟨2, 11 / 40, 1 / 2, 0, 0⟩, ⟨1, 11 / 40, 1 / 2, 0, 0⟩] ∧
      searchKbHybridOut [1, 2] [(1, 1 / 2), (2, 1 / 2)] [] []
        (11 / 20) (7 / 20) (1 / 10) 2
        [⟨1, 11 / 40, 1 / 2, 0, 0⟩, ⟨2, 11 / 40, 1 / 2, 0, 0⟩] ∧
      ([⟨2, 11 / 40, 1 / 2, 0, 0⟩, ⟨1, 11 / 40, 1 / 2, 0, 0⟩] :
          List FusedRow) ≠
        [⟨1, 11 / 40, 1 / 2, 0, 0⟩, ⟨2, 11 / 40, 1 / 2, 0, 0⟩] := by
  refine ⟨hybridPairDescPossible, ?_, hybridPairAscPossible, by simp⟩
  simp [tieBreakAscending, List.pairwise_cons]

/-- **C2** (amended).  Every possible result set of `search_kb_hybrid`
is weakly descending by fused score and has length `min k
(table size)`; the relative order of equal-score rows — and hence
cross-call determinism — is not guaranteed, as no tie-break key
follows `score DESC`. -/
theorem c2_output_weakly_sorted (kb : List Int)
    (sem lex tri : List (Int × ℚ)) (ws wl wt : ℚ) (k : Nat)
    (out : List FusedRow)
    (h : searchKbHybridOut kb sem lex tri ws wl wt k out) :
    scoreSortedDesc out ∧ out.length = min k kb.length := by
  obtain ⟨l, hperm, hsort, hout⟩ := h
  subst hout
  refine ⟨List.Pairwise.sublist (List.take_sublist k l) hsort, ?_⟩
  rw [List.length_take, ← hperm.length_eq]
  simp [fusedTable]

/-- **C2** (witness).  On the tied fixture, the ascending-id
arrangement is a possible result set, is weakly sorted, and has length
`min 2 2`. -/
theorem c2_output_weakly_sorted_witness :
    scoreSortedDesc
        [(⟨1, 11 / 40, 1 / 2, 0, 0⟩ : FusedRow), ⟨2, 11 / 40, 1 / 2, 0, 0⟩] ∧
      ([(⟨1, 11 / 40, 1 / 2, 0, 0⟩ : FusedRow),
          ⟨2, 11 / 40, 1 / 2, 0, 0⟩] : List FusedRow).length =
        min 2 ([1, 2] : List Int).length :=
  c2_output_weakly_sorted [1, 2] [(1, 1 / 2), (2, 1 / 2)] [] []
    (11 / 20) (7 / 20) (1 / 10) 2 _ hybridPairAscPossible

/-- The eleven-chunk fused table is the ten-chunk one with the
zero-signal row for chunk 11 appended. -/
theorem fusedElevenTableEq :
    fusedTable kb11 sem10 [] [] (11 / 20) (7 / 20) (1 / 10) =
      fusedTable [1, 2, 3, 4, 5, 6, 7, 8, 9, 10] sem10 [] []
          (11 / 20) (7 / 20) (1 / 10) ++ [⟨11, 0, 0, 0, 0⟩] := by
  norm_num [fusedTable, signalScore, sem10, kb11]

/-- On the eleven-chunk fixture, the singleton holding only the
zero-signal row is a possible `search_kb_hybrid` result set: its fused
score 0 outranks the ten negative-similarity candidates. -/
theorem hybridElevenPossible :
    searchKbHybridOut kb11 sem10 [] [] (11 / 20) (7 / 20) (1 / 10) 1
      [⟨11, 0, 0, 0, 0⟩] := by
  refine ⟨(⟨11, 0, 0, 0, 0⟩ : FusedRow) ::
      fusedTable [1, 2, 3, 4, 5, 6, 7, 8, 9, 10] sem10 [] []
        (11 / 20) (7 / 20) (1 / 10), ?_, ?_, rfl⟩
  · rw [fusedElevenTableEq]
    exact List.perm_append_singleton _ _
  · norm_num [scoreSortedDesc, fusedTable, signalScore, sem10,
      List.pairwise_cons]

/-- **C7** (counterexample).  The `fused` CTE left-joins from the whole
`kb_chunks` table, not from the union of candidate ids: with eleven
chunks of which the semantic signal surfaces ten — all with negative
cosine similarity — and the lexical and trigram signals surface none,
the chunk surfaced by zero signals scores 0, outranks every candidate,
and is the sole result.  A passage surfaced by no signal thus appears
in the fused output. -/
theorem c7_zero_signal_row_counterexample :
    searchKbHybridOut kb11 sem10 [] [] (11 / 20) (7 / 20) (1 / 10) 1
        [⟨11, 0, 0, 0, 0⟩] ∧
      (11 : Int) ∉ sem10.map Prod.fst := by
  refine ⟨hybridElevenPossible, by simp [sem10]⟩

/-- **C7** (amended).  Every row of a `search_kb_hybrid` result set
comes from the `kb_chunks` table — not necessarily from the union of
candidate ids — with each signal score the coalesced lookup (0 for a
signal that did not surface the id) and the fused score the weighted
sum of the three; rows surfaced by zero signals may appear. -/
theorem c7_fused_row_components (kb : List Int)
    (sem lex tri : List (Int × ℚ)) (ws wl wt : ℚ) (k : Nat)
    (out : List FusedRow) (row : FusedRow)
    (h : searchKbHybridOut kb sem lex tri ws wl wt k out)
    (hrow : row ∈ out) :
    row.id ∈ kb ∧ row.semScore = signalScore sem row.id ∧
      row.lexScore = signalScore lex row.id ∧
      row.triScore = signalScore tri row.id ∧
      row.score = ws * row.semScore + wl * row.lexScore + wt * row.triScore := by
  obtain ⟨l, hperm, hsort, hout⟩ := h
  subst hout
  have h1 : row ∈ l := List.take_subset k l hrow
  have h2 : row ∈ fusedTable kb sem lex tri ws wl wt := hperm.mem_iff.mpr h1
  simp only [fusedTable, List.mem_map] at h2
  obtain ⟨i, hi, heq⟩ := h2
  subst heq
  exact ⟨hi, rfl, rfl, rfl, rfl⟩

/-- Run lemma: on the success path (POST, health not `=== true`,
non-empty string query, environment set, embedding payload present, RPC
ok) the basic handler produces `basicSuccessResult`. -/
theorem askBotBasic_run (env : EnvVars) (body : AskBody) (orc : Oracles)
    (q : String) (emb : List ℚ) (rowsOpt : Option (List KBRow))
    (hh : body.health ≠ some (.jbool true))
    (hq : body.query = some (.jstr q)) (hq0 : q ≠ "")
    (h1 : env.supabaseUrl ≠ "") (h2 : env.serviceRole ≠ "")
    (h3 : env.openaiKey ≠ "") (he : orc.embedding = some emb)
    (hr : orc.rpc = .ok rowsOpt) :
    askBotBasic env "POST" body orc = basicSuccessResult body orc q rowsOpt := by
  have hhb : (body.health == some (JsonValue.jbool true)) = false := by
    simp [hh]
  have hqb : (q == "") = false := by simp [hq0]
  have h1b : (env.supabaseUrl == "") = false := by simp [h1]
  have h2b : (env.serviceRole == "") = false := by simp [h2]
  have h3b : (env.openaiKey == "") = false := by simp [h3]
  simp only [askBotBasic, basicSuccessResult, hq, hhb, hqb, h1b, h2b, h3b,
    he, hr]
  rfl

/-- Run lemma: on the success path the conversational handler produces
`convSuccessResult`. -/
theorem askBotConv_run (env : EnvVars) (body : AskBody) (orc : Oracles)
    (sessionTurns : List ChatMsg) (historyOk : Bool)
    (q : String) (emb : List ℚ) (rowsOpt : Option (List KBRow))
    (hh : body.health ≠ some (.jbool true))
    (hq : body.query = some (.jstr q)) (hq0 : q ≠ "")
    (h1 : env.supabaseUrl ≠ "") (h2 : env.serviceRole ≠ "")
    (h3 : env.openaiKey ≠ "") (he : orc.embedding = some emb)
    (hr : orc.rpc = .ok rowsOpt) :
    askBotConv env "POST" body orc sessionTurns historyOk =
      convSuccessResult body orc q rowsOpt sessionTurns historyOk := by
  have hhb : (body.health == some (JsonValue.jbool true)) = false := by
    simp [hh]
  have hqb : (q == "") = false := by simp [hq0]
  have h1b : (env.supabaseUrl == "") = false := by simp [h1]
  have h2b : (env.serviceRole == "") = false := by simp [h2]
  have h3b : (env.openaiKey == "") = false := by simp [h3]
  simp only [askBotConv, convSuccessResult, hq, hhb, hqb, h1b, h2b, h3b,
    he, hr]
  rfl

/-- **C7** (witness).  On the eleven-chunk fixture, the sole result row
has id 11 from the table, all three signal scores coalesced to 0, and
fused score the weighted sum 0. -/
theorem c7_fused_row_components_witness :
    (11 : Int) ∈ kb11 ∧ (0 : ℚ) = signalScore sem10 11 ∧
      (0 : ℚ) = signalScore [] 11 ∧ (0 : ℚ) = signalScore [] 11 ∧
      (0 : ℚ) = 11 / 20 * 0 + 7 / 20 * 0 + 1 / 10 * 0 :=
  c7_fused_row_components kb11 sem10 [] [] (11 / 20) (7 / 20) (1 / 10) 1
    [⟨11, 0, 0, 0, 0⟩] ⟨11, 0, 0, 0, 0⟩ hybridElevenPossible
    (List.mem_singleton_self _)

/-- **C1** (counterexample).  In the handler at
`supabase/functions/ask-bot/index.ts` the handoff decision has no
social conjunct: for the social query "hi there" with zero retrieval
candidates (and a friendly, non-hedging generated answer), the success
response carries `needs_human_help = true`, where the claim requires
`false`. -/
theorem c1_social_zero_candidates_counterexample :
    isSocialQuery "hi there" = true ∧
      (askBotBasic env0 "POST" (queryBody "hi there")
          (orcWith [] (some "Hello! How can I help you today?"))).1 =
        .ok ⟨"Hello! How can I help you today?", [], [], true,
          .jstr "uuid-1"⟩ := by
  exact ⟨by decide, by decide⟩

/-- **C1** (amended).  On the success path, the conversational
(TylerBot) handler's response satisfies
`needs_human_help = NOT social AND (non-answer OR candidateCount == 0)`,
but the handler at `supabase/functions/ask-bot/index.ts` omits the
social conjunct: its response satisfies
`needs_human_help = non-answer OR candidateCount == 0`. -/
theorem c1_needs_human_formula (env : EnvVars) (body : AskBody)
    (orc : Oracles) (sessionTurns : List ChatMsg) (historyOk : Bool)
    (q : String) (emb : List ℚ) (rowsOpt : Option (List KBRow))
    (hh : body.health ≠ some (.jbool true))
    (hq : body.query = some (.jstr q)) (hq0 : q ≠ "")
    (h1 : env.supabaseUrl ≠ "") (h2 : env.serviceRole ≠ "")
    (h3 : env.openaiKey ≠ "") (he : orc.embedding = some emb)
    (hr : orc.rpc = .ok rowsOpt) :
    (∃ r : AskSuccess,
       (askBotConv env "POST" body orc sessionTurns historyOk).1 = .ok r ∧
         r.needsHumanHelp =
           (!isSocialQuery q &&
             (isNonAnswer r.answer || (rowsOpt.getD []).length == 0))) ∧
    (∃ r : AskSuccess,
       (askBotBasic env "POST" body orc).1 = .ok r ∧
         r.needsHumanHelp =
           (isNonAnswer r.answer || (rowsOpt.getD []).length == 0)) := by
  rw [askBotConv_run env body orc sessionTurns historyOk q emb rowsOpt
      hh hq hq0 h1 h2 h3 he hr,
    askBotBasic_run env body orc q emb rowsOpt hh hq hq0 h1 h2 h3 he hr]
  exact ⟨⟨_, rfl, rfl⟩, ⟨_, rfl, rfl⟩⟩

/-- **C1** (witness).  For the social query "hi there" with zero
candidates, the conversational handler's success response satisfies the
formula (evaluating to `needs_human_help = false`), and the basic
handler's satisfies the social-free formula. -/
theorem c1_needs_human_formula_witness :
    (∃ r : AskSuccess,
       (askBotConv env0 "POST" (queryBody "hi there")
           (orcWith [] (some "Hello! How can I help you today?")) []
           true).1 = .ok r ∧
         r.needsHumanHelp =
           (!isSocialQuery "hi there" &&
             (isNonAnswer r.answer ||
               ((some ([] : List KBRow)).getD []).length == 0))) ∧
    (∃ r : AskSuccess,
       (askBotBasic env0 "POST" (queryBody "hi there")
           (orcWith [] (some "Hello! How can I help you today?"))).1 =
         .ok r ∧
         r.needsHumanHelp =
           (isNonAnswer r.answer ||
             ((some ([] : List KBRow)).getD []).length == 0)) :=
  c1_needs_human_formula env0 (queryBody "hi there")
    (orcWith [] (some "Hello! How can I help you today?")) [] true
    "hi there" [1] (some []) (by decide) rfl (by decide) (by decide)
    (by decide) (by decide) rfl rfl

/-- Index lookup through `mapIdx`: element `i` of `l.mapIdx f` is `f i`
of element `i` of `l`. -/
theorem getElem?_mapIdx (f : Nat → KBRow → α) (l : List KBRow) (i : Nat) :
    (l.mapIdx f)[i]? = (l[i]?).map (f i) := by
  simp only [List.mapIdx_eq_enum_map, List.getElem?_map, List.getElem?_enum]
  cases l[i]? <;> simp [Function.uncurry]

/-- **C3.**  The context assembler and citation mapper are positional:
for a fused result list of length n, the rendered entries are in
order — entry i (0-based) carries the marker `[#i+1]`, so the markers
are exactly `[#1]..[#n]` with no gaps or duplicates — and the citations
array also has length n, with the citation at position i having
`index = i+1` and being built from the very row rendered at context
position i. -/
theorem c3_markers_and_citations (rows : List KBRow) :
    (rows.mapIdx contextEntry).length = rows.length ∧
    (citationsOf rows).length = rows.length ∧
    contextOf rows = String.intercalate "\n\n" (rows.mapIdx contextEntry) ∧
    (∀ (i : Nat) (r : KBRow), rows[i]? = some r →
      (rows.mapIdx contextEntry)[i]? = some (contextEntry i r) ∧
      (∃ rest : String,
        contextEntry i r = "[#" ++ toString (i + 1) ++ rest) ∧
      (citationsOf rows)[i]? = some (citationAt i r) ∧
      (citationAt i r).index = i + 1) := by
  refine ⟨by simp, by simp [citationsOf], rfl, ?_⟩
  intro i r hr
  refine ⟨?_, ?_, ?_, rfl⟩
  · rw [getElem?_mapIdx, hr]; rfl
  · exact ⟨" | score=" ++ toFixed3 (r.score.getD 0) ++ "]\n" ++ r.content,
      by simp [contextEntry, String.append_assoc]⟩
  · rw [citationsOf, getElem?_mapIdx, hr]; rfl

/-- **C3** (witness).  For the one-row fixture: one entry, one
citation, marker `[#1]`, citation index 1, built from that row. -/
theorem c3_markers_and_citations_witness :
    (([kbRow1].mapIdx contextEntry)[0]? = some (contextEntry 0 kbRow1) ∧
      (∃ rest : String,
        contextEntry 0 kbRow1 = "[#" ++ toString (0 + 1) ++ rest) ∧
      (citationsOf [kbRow1])[0]? = some (citationAt 0 kbRow1) ∧
      (citationAt 0 kbRow1).index = 0 + 1) ∧
    ([kbRow1].mapIdx contextEntry).length = 1 ∧
      (citationsOf [kbRow1]).length = 1 :=
  ⟨(c3_markers_and_citations [kbRow1]).2.2.2 0 kbRow1 rfl,
   (c3_markers_and_citations [kbRow1]).1,
   (c3_markers_and_citations [kbRow1]).2.1⟩

/-- **C5** (counterexample).  With retrieval returning a row but the
generation payload carrying no answer content, the handler responds
with HTTP 200 success carrying the fallback answer "I don't know." —
not with an explicit error response. -/
theorem c5_fallback_counterexample :
    (askBotBasic env0 "POST" (queryBody "my remote won't pair")
        (orcWith [kbRow1] none)).1 =
      .ok ⟨dontKnowMsg, citationsOf [kbRow1], [kbRow1], true,
        .jstr "uuid-1"⟩ := by
  decide

/-- The fallback answer always matches a hedging pattern or coincides
with zero candidates, so the computed handoff flag is true. -/
theorem fallback_flags_handoff (n : Nat) :
    (isNonAnswer (if n ≠ 0 then dontKnowMsg else couldntFindMsg) ||
      (n == 0)) = true := by
  by_cases h : n = 0
  · subst h; simp
  · rw [if_pos h, show isNonAnswer dontKnowMsg = true from by decide,
      Bool.true_or]

/-- **C5** (amended).  A generation payload with no answer content is
not surfaced as an error: the handler still returns the HTTP 200
success shape, with a fallback answer chosen by whether retrieval
returned rows (and `needs_human_help = true`).  Only the embedding
failure is surfaced as an explicit 502 error response. -/
theorem c5_generation_not_surfaced (env : EnvVars) (body : AskBody)
    (orc : Oracles) (q : String) (emb : List ℚ)
    (rowsOpt : Option (List KBRow))
    (hh : body.health ≠ some (.jbool true))
    (hq : body.query = some (.jstr q)) (hq0 : q ≠ "")
    (h1 : env.supabaseUrl ≠ "") (h2 : env.serviceRole ≠ "")
    (h3 : env.openaiKey ≠ "") (he : orc.embedding = some emb)
    (hr : orc.rpc = .ok rowsOpt) (hchat : orc.chatContent = none) :
    (askBotBasic env "POST" body orc).1 =
      .ok ⟨(if (rowsOpt.getD []).length ≠ 0 then dontKnowMsg
            else couldntFindMsg),
        citationsOf ((rowsOpt.getD []).take
          (jsSliceTake (rowsOpt.getD []).length (topKOf body.top_k))),
        rowsOpt.getD [], true,
        sessionIdOf body.session_id orc.genUuid⟩ ∧
    (∀ orc' : Oracles, orc'.embedding = none →
      (askBotBasic env "POST" body orc').1 =
        .err 502 "Failed to get embedding") := by
  constructor
  · rw [askBotBasic_run env body orc q emb rowsOpt hh hq hq0 h1 h2 h3 he hr]
    simp only [basicSuccessResult, hchat]
    rw [fallback_flags_handoff]
  · intro orc' he'
    have hhb : (body.health == some (JsonValue.jbool true)) = false := by
      simp [hh]
    have hqb : (q == "") = false := by simp [hq0]
    have h1b : (env.supabaseUrl == "") = false := by simp [h1]
    have h2b : (env.serviceRole == "") = false := by simp [h2]
    have h3b : (env.openaiKey == "") = false := by simp [h3]
    simp only [askBotBasic, hq, hhb, hqb, h1b, h2b, h3b, he']
    rfl

/-- **C5** (witness).  With no rows and no generation content the
handler answers 200 with the knowledge-base fallback; and an oracle
with no embedding payload gets the 502. -/
theorem c5_generation_not_surfaced_witness :
    ((askBotBasic env0 "POST" (queryBody "hi") (orcWith [] none)).1 =
      .ok ⟨(if ((some ([] : List KBRow)).getD []).length ≠ 0 then
              dontKnowMsg else couldntFindMsg),
        citationsOf (((some ([] : List KBRow)).getD []).take
          (jsSliceTake ((some ([] : List KBRow)).getD []).length
            (topKOf (queryBody "hi").top_k))),
        (some ([] : List KBRow)).getD [], true,
        sessionIdOf (queryBody "hi").session_id (orcWith [] none).genUuid⟩) ∧
    (askBotBasic env0 "POST" (queryBody "hi")
        ⟨none, .ok (some []), none, "uuid-1"⟩).1 =
      .err 502 "Failed to get embedding" := by
  have h := c5_generation_not_surfaced env0 (queryBody "hi")
    (orcWith [] none) "hi" [1] (some []) (by decide) rfl (by decide)
    (by decide) (by decide) (by decide) rfl rfl rfl
  exact ⟨h.1, h.2 ⟨none, .ok (some []), none, "uuid-1"⟩ rfl⟩

/-- **C6** (code bug).  The conversational handler's history fetch
orders by timestamp ascending and then applies `LIMIT 2·max_history`,
so with three stored pairs and `max_history = 1` the message sequence
includes the OLDEST pair ("first question"/"first answer"), not the
most recent one ("third question"/"third answer") as documented; and
when the history fetch fails the handler still returns the normal 200
answer with empty history. -/
theorem c6_history_takes_oldest :
    (askBotConv env0 "POST" historyBody1
        (orcWith [] (some "You can add scenes in the Control4 app."))
        turns3Pairs true).2 =
      [.embed "and what about scenes?",
       .rpcSearch "and what about scenes?" (.val 10) (11 / 20) (7 / 20)
         (1 / 10),
       .chatComplete
         [⟨"system", convSystemPrompt⟩,
          ⟨"user", "first question"⟩, ⟨"assistant", "first answer"⟩,
          ⟨"user", "and what about scenes?\n\nCONTEXT:\n"⟩],
       .insertTurn (.jstr "sess-1") "user" "and what about scenes?",
       .insertTurn (.jstr "sess-1") "assistant"
         "You can add scenes in the Control4 app."] ∧
    (⟨"user", "third question"⟩ : ChatMsg) ∉
      [(⟨"system", convSystemPrompt⟩ : ChatMsg),
       ⟨"user", "first question"⟩, ⟨"assistant", "first answer"⟩,
       ⟨"user", "and what about scenes?\n\nCONTEXT:\n"⟩] ∧
    (askBotConv env0 "POST" historyBody1
        (orcWith [] (some "You can add scenes in the Control4 app."))
        turns3Pairs false).2 =
      [.embed "and what about scenes?",
       .rpcSearch "and what about scenes?" (.val 10) (11 / 20) (7 / 20)
         (1 / 10),
       .chatComplete
         [⟨"system", convSystemPrompt⟩,
          ⟨"user", "and what about scenes?\n\nCONTEXT:\n"⟩],
       .insertTurn (.jstr "sess-1") "user" "and what about scenes?",
       .insertTurn (.jstr "sess-1") "assistant"
         "You can add scenes in the Control4 app."] ∧
    (askBotConv env0 "POST" historyBody1
        (orcWith [] (some "You can add scenes in the Control4 app."))
        turns3Pairs false).1 =
      .ok ⟨"You can add scenes in the Control4 app.", [], [], true,
        .jstr "sess-1"⟩ := by
  refine ⟨rfl, by decide, rfl, by decide⟩

/-! ### Occurrence bookkeeping for the idempotence development -/

theorem occ_cons_lift {P : PatShape} {po : Option Char} {c : Char} {l : Str}
    (h : OccG P (some c) l) : OccG P po (c :: l) := by
  obtain ⟨pre, gap, rest, h1, h2, h3, h4, h5⟩ := h
  refine ⟨c :: pre, gap, rest, by rw [h1]; rfl, h2, h3, ?_, h5⟩
  rcases h4 with h4 | h4
  · exact Or.inl h4
  · right
    rw [or_getLast_cons]
    exact h4

theorem occ_uncons {P : PatShape} {po : Option Char} {c : Char} {l : Str}
    (h : OccG P po (c :: l)) :
    (∃ gap rest, c :: l = (P.lit1 ++ gap ++ P.lit2) ++ rest ∧
      (∀ x ∈ gap, isJsWs x = true) ∧ (P.gapOpt = true ∨ gap ≠ []) ∧
      (P.bneed = false ∨ bCtx po = true) ∧ jsBoundaryAfter rest = true) ∨
    OccG P (some c) l := by
  obtain ⟨pre, gap, rest, h1, h2, h3, h4, h5⟩ := h
  cases pre with
  | nil =>
    left
    refine ⟨gap, rest, by rw [h1]; simp, h2, h3, ?_, h5⟩
    simpa using h4
  | cons p pre2 =>
    right
    rw [List.cons_append] at h1
    injection h1 with hc h1
    subst hc
    refine ⟨pre2, gap, rest, h1, h2, h3, ?_, h5⟩
    rcases h4 with h4 | h4
    · exact Or.inl h4
    · right
      rw [or_getLast_cons] at h4
      exact h4

theorem occ_append_lift {P : PatShape} {po : Option Char} {w l : Str}
    (h : OccG P (Option.or w.getLast? po) l) : OccG P po (w ++ l) := by
  induction w generalizing po with
  | nil => simpa using h
  | cons x w2 ih =>
    rw [List.cons_append]
    refine occ_cons_lift (ih ?_)
    rw [or_getLast_cons] at h
    exact h

theorem occ_unappend {P : PatShape} {po : Option Char} {w l : Str}
    (h : OccG P po (w ++ l)) :
    (∃ preR q gap rest, w = preR ++ q ∧ q ≠ [] ∧
      q ++ l = (P.lit1 ++ gap ++ P.lit2) ++ rest ∧
      (∀ x ∈ gap, isJsWs x = true) ∧ (P.gapOpt = true ∨ gap ≠ []) ∧
      jsBoundaryAfter rest = true) ∨
    OccG P (Option.or w.getLast? po) l := by
  induction w generalizing po with
  | nil =>
    right
    simpa using h
  | cons x w2 ih =>
    rw [List.cons_append] at h
    rcases occ_uncons h with ⟨gap, rest, h1, h2, h3, _, h5⟩ | h1
    · left
      exact ⟨[], x :: w2, gap, rest, rfl, by simp, by simpa using h1, h2,
        h3, h5⟩
    · rcases ih h1 with ⟨preR, q, gap, rest, hw, hq, he, h2, h3, h5⟩ | h2
      · left
        exact ⟨x :: preR, q, gap, rest, by rw [hw]; rfl, hq, he, h2, h3, h5⟩
      · right
        rw [or_getLast_cons]
        exact h2

/-! ### Completeness bridges for the decidable instance-part checks -/

theorem tPrefixOK_of_part {P : PatShape} {gap q y : Str}
    (hg : ∀ c ∈ gap, isJsWs c = true) (hv : P.gapOpt = true ∨ gap ≠ [])
    (h : q ++ y = P.lit1 ++ gap ++ P.lit2) :
    tPrefixOK P q = true := by
  have h' : q ++ y = P.lit1 ++ (gap ++ P.lit2) := by
    simpa [List.append_assoc] using h
  have hqpre : q <+: P.lit1 ++ (gap ++ P.lit2) := ⟨y, h'⟩
  by_cases hle : q.length ≤ P.lit1.length
  · have h1 : q <+: P.lit1 :=
      List.prefix_of_prefix_length_le hqpre (List.prefix_append _ _) hle
    simp [tPrefixOK, List.isPrefixOf_iff_prefix.mpr h1]
  · push_neg at hle
    have h1 : P.lit1 <+: q :=
      List.prefix_of_prefix_length_le (List.prefix_append _ _) hqpre
        (le_of_lt hle)
    obtain ⟨w, hw⟩ := h1
    have hcancel : w ++ y = gap ++ P.lit2 := by
      rw [← hw, List.append_assoc] at h'
      exact List.append_cancel_left h'
    have hdrop : q.drop P.lit1.length = w := by
      rw [← hw]; exact List.drop_left _ _
    by_cases hle2 : w.length ≤ gap.length
    · have h2 : w <+: gap :=
        List.prefix_of_prefix_length_le ⟨y, hcancel⟩
          (List.prefix_append _ _) hle2
      have hwws : wsStr w = true := by
        rw [wsStr, List.all_eq_true]
        intro c hc
        exact hg c (h2.sublist.subset hc)
      simp [tPrefixOK, hdrop, hwws, List.isPrefixOf_iff_prefix.mpr ⟨w, hw⟩]
    · push_neg at hle2
      have h2 : gap <+: w :=
        List.prefix_of_prefix_length_le (List.prefix_append _ _)
          ⟨y, hcancel⟩ (le_of_lt hle2)
      obtain ⟨p2, hp2⟩ := h2
      have h3 : p2 ++ y = P.lit2 := by
        rw [← hp2, List.append_assoc] at hcancel
        exact List.append_cancel_left hcancel
      have htk : w.take gap.length = gap := by
        rw [← hp2]; exact List.take_left _ _
      have hdr : w.drop gap.length = p2 := by
        rw [← hp2]; exact List.drop_left _ _
      have hrange : gap.length ∈ List.range (q.length - P.lit1.length + 1) := by
        rw [List.mem_range]
        have e1 : q.length = P.lit1.length + w.length := by
          rw [← hw, List.length_append]
        have e2 : gap.length ≤ w.length := by
          rw [← hp2, List.length_append]; omega
        omega
      simp only [tPrefixOK, Bool.or_eq_true, Bool.and_eq_true,
        List.any_eq_true]
      refine Or.inr ⟨List.isPrefixOf_iff_prefix.mpr ⟨w, hw⟩,
        Or.inr ⟨gap.length, hrange, ⟨?_, ?_⟩, ?_⟩⟩
      · rw [hdrop, htk, wsStr, List.all_eq_true]
        exact fun c hc => hg c hc
      · rw [hdrop, hdr]
        exact List.isPrefixOf_iff_prefix.mpr ⟨y, h3⟩
      · rcases hv with hv | hv
        · simp [hv]
        · simp [List.length_eq_zero, hv]

theorem tSuffixOK_of_part {P : PatShape} {gap x q : Str}
    (hg : ∀ c ∈ gap, isJsWs c = true) (hv : P.gapOpt = true ∨ gap ≠ [])
    (h : x ++ q = P.lit1 ++ gap ++ P.lit2) :
    tSuffixOK P q = true := by
  have hqsuf : q <:+ P.lit1 ++ gap ++ P.lit2 := ⟨x, h⟩
  have hl2suf : P.lit2 <:+ P.lit1 ++ gap ++ P.lit2 := ⟨P.lit1 ++ gap, rfl⟩
  by_cases hle : q.length ≤ P.lit2.length
  · have h1 : q <:+ P.lit2 := List.suffix_of_suffix_length_le hqsuf hl2suf hle
    simp [tSuffixOK, List.isSuffixOf_iff_suffix.mpr h1]
  · push_neg at hle
    have h1 : P.lit2 <:+ q :=
      List.suffix_of_suffix_length_le hl2suf hqsuf (le_of_lt hle)
    obtain ⟨w, hw⟩ := h1
    have hcancel : x ++ w = P.lit1 ++ gap := by
      rw [← hw, ← List.append_assoc] at h
      exact List.append_cancel_right h
    have hwlen : q.length - P.lit2.length = w.length := by
      rw [← hw, List.length_append]; omega
    have htake : q.take (q.length - P.lit2.length) = w := by
      rw [hwlen, ← hw]; exact List.take_left _ _
    by_cases hle2 : w.length ≤ gap.length
    · have h2 : w <:+ gap :=
        List.suffix_of_suffix_length_le ⟨x, hcancel⟩ ⟨P.lit1, rfl⟩ hle2
      have hwws : wsStr w = true := by
        rw [wsStr, List.all_eq_true]
        intro c hc
        exact hg c (h2.sublist.subset hc)
      simp [tSuffixOK, htake, hwws, List.isSuffixOf_iff_suffix.mpr ⟨w, hw⟩]
    · push_neg at hle2
      have h2 : gap <:+ w :=
        List.suffix_of_suffix_length_le ⟨P.lit1, rfl⟩ ⟨x, hcancel⟩
          (le_of_lt hle2)
      obtain ⟨s1, hs1⟩ := h2
      have h3 : x ++ s1 = P.lit1 := by
        rw [← hs1, ← List.append_assoc] at hcancel
        exact List.append_cancel_right hcancel
      have htk : w.take s1.length = s1 := by
        rw [← hs1]; exact List.take_left _ _
      have hdr : w.drop s1.length = gap := by
        rw [← hs1]; exact List.drop_left _ _
      have hgl : w.length = s1.length + gap.length := by
        rw [← hs1, List.length_append]
      have hrange : s1.length ∈ List.range (q.length - P.lit2.length + 1) := by
        rw [List.mem_range, hwlen]; omega
      simp only [tSuffixOK, Bool.or_eq_true, Bool.and_eq_true,
        List.any_eq_true]
      refine Or.inr ⟨List.isSuffixOf_iff_suffix.mpr ⟨w, hw⟩,
        Or.inr ⟨s1.length, hrange, ⟨?_, ?_⟩, ?_⟩⟩
      · rw [htake, hdr, wsStr, List.all_eq_true]
        exact fun c hc => hg c hc
      · rw [htake, htk]
        exact List.isSuffixOf_iff_suffix.mpr ⟨x, h3⟩
      · rcases hv with hv | hv
        · simp [hv]
        · have hne : gap.length ≠ 0 := fun h0 => hv (List.length_eq_zero.mp h0)
          simp only [hwlen, Bool.or_eq_true, decide_eq_true_eq]
          right
          omega

theorem tMidOK_of_part {P : PatShape} {gap x q y : Str}
    (hg : ∀ c ∈ gap, isJsWs c = true) (hv : P.gapOpt = true ∨ gap ≠ [])
    (hx : x ≠ []) (h : x ++ q ++ y = P.lit1 ++ gap ++ P.lit2) :
    tMidOK P q = true := by
  have h' : x ++ (q ++ y) = P.lit1 ++ (gap ++ P.lit2) := by
    simpa [List.append_assoc] using h
  by_cases hle : x.length < P.lit1.length
  · have h1 : x <+: P.lit1 :=
      List.prefix_of_prefix_length_le ⟨q ++ y, h'⟩ (List.prefix_append _ _)
        (le_of_lt hle)
    obtain ⟨p1, hp1⟩ := h1
    have hc : q ++ y = p1 ++ gap ++ P.lit2 := by
      rw [← hp1, List.append_assoc] at h'
      simpa [List.append_assoc] using List.append_cancel_left h'
    have hb : tPrefixOK ⟨P.bneed, p1, P.lit2, P.gapOpt⟩ q = true :=
      tPrefixOK_of_part hg hv hc
    have hp1mem : p1 ∈ P.lit1.tails := (List.mem_tails _ _).mpr ⟨x, hp1⟩
    have hp1ne : p1 ≠ P.lit1 := by
      intro he
      apply hx
      have hl := congrArg List.length hp1
      rw [he, List.length_append] at hl
      exact List.length_eq_zero.mp (by omega)
    simp only [tMidOK, Bool.or_eq_true, List.any_eq_true]
    exact Or.inl (Or.inl ⟨p1, hp1mem, by simp [hp1ne, hb]⟩)
  · push_neg at hle
    have h1 : P.lit1 <+: x :=
      List.prefix_of_prefix_length_le (List.prefix_append _ _)
        ⟨q ++ y, h'⟩ hle
    obtain ⟨x2, hx2⟩ := h1
    have hc : x2 ++ (q ++ y) = gap ++ P.lit2 := by
      rw [← hx2, List.append_assoc] at h'
      exact List.append_cancel_left h'
    by_cases hle2 : x2.length ≤ gap.length
    · have h2 : x2 <+: gap :=
        List.prefix_of_prefix_length_le ⟨q ++ y, hc⟩
          (List.prefix_append _ _) hle2
      obtain ⟨g2, hg2⟩ := h2
      have hc2 : q ++ y = g2 ++ P.lit2 := by
        rw [← hg2, List.append_assoc] at hc
        exact List.append_cancel_left hc
      have hb : tPrefixOK ⟨P.bneed, [], P.lit2, true⟩ q = true := by
        have he : q ++ y = ([] : Str) ++ g2 ++ P.lit2 := by simpa using hc2
        have hgws : ∀ c ∈ g2, isJsWs c = true := fun c hc' =>
          hg c (by rw [← hg2]; exact List.mem_append_right _ hc')
        exact tPrefixOK_of_part hgws (Or.inl rfl) he
      simp only [tMidOK, Bool.or_eq_true, List.any_eq_true]
      exact Or.inl (Or.inr hb)
    · push_neg at hle2
      have h2 : gap <+: x2 :=
        List.prefix_of_prefix_length_le (List.prefix_append _ _)
          ⟨q ++ y, hc⟩ (le_of_lt hle2)
      obtain ⟨x3, hx3⟩ := h2
      have hc2 : x3 ++ (q ++ y) = P.lit2 := by
        rw [← hx3, List.append_assoc] at hc
        exact List.append_cancel_left hc
      have hq : q <+: P.lit2.drop x3.length := by
        rw [← hc2, List.drop_left]
        exact List.prefix_append _ _
      simp only [tMidOK, Bool.or_eq_true, List.any_eq_true]
      exact Or.inr ⟨P.lit2.drop x3.length,
        (List.mem_tails _ _).mpr (List.drop_suffix _ _),
        List.isPrefixOf_iff_prefix.mpr hq⟩

theorem getD_append_length {l w2 : Str} (w0 : Char) :
    (l ++ w0 :: w2).getD l.length ' ' = w0 := by
  induction l with
  | nil => rfl
  | cons x xs ih => simpa using ih

/-- Core reflection lemma: if the output of a scan starts with the tail
`tl` of a pattern instance (the instance began at the start of this
output, possibly with earlier characters already consumed into `x`),
then the scanned input starts with the same `tl` and the boundary
condition carries over.  The decidable side conditions rule out every
way a replacement block could take part in the instance. -/
theorem head_reflect (m : Matcher) (r : Str) (P : PatShape)
    (hd : Decomposes m) (hr0 : r ≠ [])
    (hfw : ∀ p s mt rest, m p s = some (mt, rest) → mt.head? = r.head?)
    (hsufH : (r.tails.all fun q => q.isEmpty || !(tPrefixOK P q)) = true)
    (hreq : tSuffixOK P r = false)
    (hmid : tMidOK P r = false)
    (hafter : ((List.range r.length).all fun i =>
        decide (i = 0) || !(tSuffixOK P (r.take i)) ||
          isJsWord (r.getD i ' ')) = true) :
    ∀ fuel prev s x tl restO gap, s.length ≤ fuel →
      (∀ c ∈ gap, isJsWs c = true) → (P.gapOpt = true ∨ gap ≠ []) →
      x ++ tl = P.lit1 ++ gap ++ P.lit2 →
      replaceGo m r fuel prev s = tl ++ restO →
      jsBoundaryAfter restO = true →
      ∃ restI, s = tl ++ restI ∧ jsBoundaryAfter restI = true := by
  intro fuel
  induction fuel with
  | zero =>
    intro prev s x tl restO gap hle hgap hval hinst hgo hb
    have hs : s = [] := List.length_eq_zero.mp (Nat.le_zero.mp hle)
    subst hs
    simp only [replaceGo] at hgo
    have h1 : tl = [] ∧ restO = [] := List.append_eq_nil.mp hgo.symm
    exact ⟨[], by simp [h1.1], rfl⟩
  | succ fuel ih =>
    intro prev s x tl restO gap hle hgap hval hinst hgo hb
    cases s with
    | nil =>
      simp only [replaceGo] at hgo
      have h1 : tl = [] ∧ restO = [] := List.append_eq_nil.mp hgo.symm
      exact ⟨[], by simp [h1.1], rfl⟩
    | cons c cs =>
      have hlen2 : cs.length ≤ fuel := Nat.le_of_succ_le_succ (by simpa using hle)
      cases tl with
      | nil =>
        refine ⟨c :: cs, rfl, ?_⟩
        rw [List.nil_append] at hgo
        rw [← hgo] at hb
        cases hm : m prev (c :: cs) with
        | none =>
          rw [replaceGo, hm] at hb
          simpa [jsBoundaryAfter] using hb
        | some pr =>
          obtain ⟨mt, rest⟩ := pr
          rw [replaceGo, hm] at hb
          dsimp only at hb
          obtain ⟨hs, hne⟩ := hd prev (c :: cs) mt rest hm
          have hh := hfw prev (c :: cs) mt rest hm
          cases mt with
          | nil => exact absurd rfl hne
          | cons m0 mrest =>
            rw [List.cons_append] at hs
            injection hs with hc hs2
            cases r with
            | nil => exact absurd rfl hr0
            | cons r0 rr =>
              simp only [List.head?_cons, Option.some.injEq] at hh
              rw [List.cons_append] at hb
              simp only [jsBoundaryAfter] at hb ⊢
              rw [hc, hh]
              exact hb
      | cons t0 tl2 =>
        cases hm : m prev (c :: cs) with
        | none =>
          rw [replaceGo, hm] at hgo
          rw [List.cons_append] at hgo
          injection hgo with hc0 hgo2
          have hinst2 : (x ++ [t0]) ++ tl2 = P.lit1 ++ gap ++ P.lit2 := by
            rw [List.append_assoc]
            exact hinst
          obtain ⟨restI, hsI, hbI⟩ :=
            ih (some c) cs (x ++ [t0]) tl2 restO gap hlen2 hgap hval hinst2
              hgo2 hb
          refine ⟨restI, ?_, hbI⟩
          rw [List.cons_append, hc0, hsI]
        | some pr =>
          obtain ⟨mt, rest⟩ := pr
          rw [replaceGo, hm] at hgo
          dsimp only at hgo
          rcases List.append_eq_append_iff.mp hgo with ⟨w, hw1, hw2⟩ |
            ⟨w, hw1, hw2⟩
          · have hxr : (x ++ r) ++ w = P.lit1 ++ gap ++ P.lit2 := by
              rw [List.append_assoc, ← hw1]
              exact hinst
            by_cases hxe : x = []
            · subst hxe
              have htp : tPrefixOK P r = true :=
                tPrefixOK_of_part hgap hval (by simpa using hxr)
              have hall := List.all_eq_true.mp hsufH r
                ((List.mem_tails _ _).mpr (List.suffix_refl r))
              have hre : r = [] := by
                simpa [htp, List.isEmpty_iff] using hall
              exact absurd hre hr0
            · have hmd : tMidOK P r = true :=
                tMidOK_of_part hgap hval hxe hxr
              rw [hmid] at hmd
              exact absurd hmd (by simp)
          · cases w with
            | nil =>
              have hts : tSuffixOK P r = true := by
                have he : x ++ r = P.lit1 ++ gap ++ P.lit2 := by
                  rw [hw1]
                  simpa using hinst
                exact tSuffixOK_of_part hgap hval he
              rw [hreq] at hts
              exact absurd hts (by simp)
            | cons w0 w2 =>
              have hts : tSuffixOK P (r.take (t0 :: tl2).length) = true := by
                rw [hw1, List.take_left]
                exact tSuffixOK_of_part hgap hval hinst
              have hidx : (t0 :: tl2).length < r.length := by
                rw [hw1, List.length_append]
                simp
              have hget : r.getD (t0 :: tl2).length ' ' = w0 := by
                rw [hw1]
                exact getD_append_length w0
              have hword := List.all_eq_true.mp hafter (t0 :: tl2).length
                (List.mem_range.mpr hidx)
              rw [hts, hget] at hword
              simp at hword
              rw [hw2, List.cons_append] at hb
              simp [jsBoundaryAfter, hword] at hb

theorem occ_nil_false {P : PatShape} {po : Option Char} (hL1 : P.lit1 ≠ [])
    (h : OccG P po []) : False := by
  obtain ⟨pre, gap, rest, h1, _, _, _, _⟩ := h
  have hl := congrArg List.length h1
  simp [List.length_append] at hl
  exact hL1 (List.length_eq_zero.mp (by omega))

/-- A global replace can only reflect an occurrence backwards: under the
side conditions, an occurrence of the shape in the scan output yields an
occurrence in the scan input. -/
theorem scan_reflect (m : Matcher) (r : Str) (P : PatShape)
    (hd : Decomposes m) (hr0 : r ≠ []) (hL1 : P.lit1 ≠ [])
    (hlen : r.length <
      P.lit1.length + P.lit2.length + (if P.gapOpt = true then 0 else 1))
    (hlast : ∀ p s mt rest, m p s = some (mt, rest) →
      mt.getLast? = r.getLast?)
    (hfw : ∀ p s mt rest, m p s = some (mt, rest) → mt.head? = r.head?)
    (hsufH : (r.tails.all fun q => q.isEmpty || !(tPrefixOK P q)) = true)
    (hreq : tSuffixOK P r = false)
    (hmid : tMidOK P r = false)
    (hafter : ((List.range r.length).all fun i =>
        decide (i = 0) || !(tSuffixOK P (r.take i)) ||
          isJsWord (r.getD i ' ')) = true) :
    ∀ fuel prev s, s.length ≤ fuel →
      OccG P prev (replaceGo m r fuel prev s) → OccG P prev s := by
  intro fuel
  induction fuel with
  | zero =>
    intro prev s _ hocc
    simpa only [replaceGo] using hocc
  | succ fuel ih =>
    intro prev s hle hocc
    cases s with
    | nil =>
      simp only [replaceGo] at hocc
      exact absurd hocc (fun h => occ_nil_false hL1 h)
    | cons c cs =>
      have hlen2 : cs.length ≤ fuel :=
        Nat.le_of_succ_le_succ (by simpa using hle)
      cases hm : m prev (c :: cs) with
      | none =>
        have hgo : replaceGo m r (fuel + 1) prev (c :: cs) =
            c :: replaceGo m r fuel (some c) cs := by
          rw [replaceGo, hm]
        rw [hgo] at hocc
        rcases occ_uncons hocc with ⟨gap, rest, h1, h2, h3, h4, h5⟩ | hocc2
        · obtain ⟨restI, hsI, hbI⟩ := head_reflect m r P hd hr0 hfw hsufH
            hreq hmid hafter (fuel + 1) prev (c :: cs) []
            (P.lit1 ++ gap ++ P.lit2) rest gap hle h2 h3 (by simp)
            (by rw [hgo]; exact h1) h5
          exact ⟨[], gap, restI, by simpa [List.append_assoc] using hsI,
            h2, h3, by simpa using h4, hbI⟩
        · exact occ_cons_lift (ih (some c) cs hlen2 hocc2)
      | some pr =>
        obtain ⟨mt, rest⟩ := pr
        have hgo : replaceGo m r (fuel + 1) prev (c :: cs) =
            r ++ replaceGo m r fuel mt.getLast? rest := by
          rw [replaceGo, hm]
        rw [hgo] at hocc
        obtain ⟨hs, hne⟩ := hd prev (c :: cs) mt rest hm
        have hrl : rest.length ≤ fuel := by
          have h1 : (c :: cs).length = mt.length + rest.length := by
            rw [hs, List.length_append]
          have h2 : 1 ≤ mt.length :=
            Nat.one_le_iff_ne_zero.mpr (by simpa using hne)
          simp only [List.length_cons] at h1 hle
          omega
        rcases occ_unappend hocc with
          ⟨preR, q, gap, rest2, hwq, hq, he, h2, h3, h5⟩ | hocc2
        · rcases List.append_eq_append_iff.mp he with ⟨w, hw1, hw2⟩ |
            ⟨w, hw1, hw2⟩
          · have htp : tPrefixOK P q = true :=
              tPrefixOK_of_part h2 h3 hw1.symm
            have hmem : q ∈ r.tails :=
              (List.mem_tails _ _).mpr ⟨preR, hwq.symm⟩
            have hall := List.all_eq_true.mp hsufH q hmem
            have hqe : q = [] := by
              simpa [htp, List.isEmpty_iff] using hall
            exact absurd hqe hq
          · have hql : q.length ≤ r.length := by
              have := congrArg List.length hwq
              rw [List.length_append] at this
              omega
            have hTl : P.lit1.length + gap.length + P.lit2.length ≤
                q.length := by
              have := congrArg List.length hw1
              simp [List.length_append] at this
              omega
            have hlen3 : r.length <
                P.lit1.length + P.lit2.length + gap.length := by
              rcases h3 with h3 | h3
              · rw [h3] at hlen
                simp at hlen
                omega
              · have hg : 1 ≤ gap.length := Nat.one_le_iff_ne_zero.mpr
                  (fun h0 => h3 (List.length_eq_zero.mp h0))
                by_cases hgo2 : P.gapOpt = true
                · rw [hgo2] at hlen
                  simp at hlen
                  omega
                · simp [hgo2] at hlen
                  omega
            omega
        · have hctx : Option.or r.getLast? prev = mt.getLast? := by
            rw [hlast prev (c :: cs) mt rest hm]
            cases hr : r.getLast? with
            | none => exact absurd (List.getLast?_eq_none_iff.mp hr) hr0
            | some z => rfl
          rw [hctx] at hocc2
          have hoccr := ih mt.getLast? rest hrl hocc2
          rw [hs]
          refine occ_append_lift ?_
          have hor : Option.or mt.getLast? prev = mt.getLast? := by
            cases hmt : mt.getLast? with
            | none => exact absurd (List.getLast?_eq_none_iff.mp hmt) hne
            | some z => rfl
          rw [hor]
          exact hoccr

/-- A scan destroys its own pattern: under the side conditions, together
with completeness of the matcher on the shape, the scan output contains
no occurrence of the shape at all. -/
theorem scan_self (m : Matcher) (r : Str) (P : PatShape)
    (hd : Decomposes m) (hr0 : r ≠ []) (hL1 : P.lit1 ≠ [])
    (hlen : r.length <
      P.lit1.length + P.lit2.length + (if P.gapOpt = true then 0 else 1))
    (hlast : ∀ p s mt rest, m p s = some (mt, rest) →
      mt.getLast? = r.getLast?)
    (hfw : ∀ p s mt rest, m p s = some (mt, rest) → mt.head? = r.head?)
    (hsufH : (r.tails.all fun q => q.isEmpty || !(tPrefixOK P q)) = true)
    (hreq : tSuffixOK P r = false)
    (hmid : tMidOK P r = false)
    (hafter : ((List.range r.length).all fun i =>
        decide (i = 0) || !(tSuffixOK P (r.take i)) ||
          isJsWord (r.getD i ' ')) = true)
    (hcompl : ∀ prev gap rest, (∀ c ∈ gap, isJsWs c = true) →
      (P.gapOpt = true ∨ gap ≠ []) → (P.bneed = true → bCtx prev = true) →
      jsBoundaryAfter rest = true →
      m prev (P.lit1 ++ gap ++ P.lit2 ++ rest) ≠ none) :
    ∀ fuel prev s, s.length ≤ fuel →
      ¬ OccG P prev (replaceGo m r fuel prev s) := by
  intro fuel
  induction fuel with
  | zero =>
    intro prev s hle hocc
    have hs : s = [] := List.length_eq_zero.mp (Nat.le_zero.mp hle)
    subst hs
    simp only [replaceGo] at hocc
    exact occ_nil_false hL1 hocc
  | succ fuel ih =>
    intro prev s hle hocc
    cases s with
    | nil =>
      simp only [replaceGo] at hocc
      exact occ_nil_false hL1 hocc
    | cons c cs =>
      have hlen2 : cs.length ≤ fuel :=
        Nat.le_of_succ_le_succ (by simpa using hle)
      cases hm : m prev (c :: cs) with
      | none =>
        have hgo : replaceGo m r (fuel + 1) prev (c :: cs) =
            c :: replaceGo m r fuel (some c) cs := by
          rw [replaceGo, hm]
        rw [hgo] at hocc
        rcases occ_uncons hocc with ⟨gap, rest, h1, h2, h3, h4, h5⟩ | hocc2
        · obtain ⟨restI, hsI, hbI⟩ := head_reflect m r P hd hr0 hfw hsufH
            hreq hmid hafter (fuel + 1) prev (c :: cs) []
            (P.lit1 ++ gap ++ P.lit2) rest gap hle h2 h3 (by simp)
            (by rw [hgo]; exact h1) h5
          have hb4 : P.bneed = true → bCtx prev = true := by
            intro hbn
            rcases h4 with h4 | h4
            · rw [hbn] at h4
              exact absurd h4 (by simp)
            · exact h4
          have hnm := hcompl prev gap restI h2 h3 hb4 hbI
          have hs2 : c :: cs = P.lit1 ++ gap ++ P.lit2 ++ restI := by
            simpa [List.append_assoc] using hsI
          rw [hs2] at hm
          exact hnm hm
        · exact ih (some c) cs hlen2 hocc2
      | some pr =>
        obtain ⟨mt, rest⟩ := pr
        have hgo : replaceGo m r (fuel + 1) prev (c :: cs) =
            r ++ replaceGo m r fuel mt.getLast? rest := by
          rw [replaceGo, hm]
        rw [hgo] at hocc
        obtain ⟨hs, hne⟩ := hd prev (c :: cs) mt rest hm
        have hrl : rest.length ≤ fuel := by
          have h1 : (c :: cs).length = mt.length + rest.length := by
            rw [hs, List.length_append]
          have h2 : 1 ≤ mt.length :=
            Nat.one_le_iff_ne_zero.mpr (by simpa using hne)
          simp only [List.length_cons] at h1 hle
          omega
        rcases occ_unappend hocc with
          ⟨preR, q, gap, rest2, hwq, hq, he, h2, h3, h5⟩ | hocc2
        · rcases List.append_eq_append_iff.mp he with ⟨w, hw1, hw2⟩ |
            ⟨w, hw1, hw2⟩
          · have htp : tPrefixOK P q = true :=
              tPrefixOK_of_part h2 h3 hw1.symm
            have hmem : q ∈ r.tails :=
              (List.mem_tails _ _).mpr ⟨preR, hwq.symm⟩
            have hall := List.all_eq_true.mp hsufH q hmem
            have hqe : q = [] := by
              simpa [htp, List.isEmpty_iff] using hall
            exact absurd hqe hq
          · have hql : q.length ≤ r.length := by
              have := congrArg List.length hwq
              rw [List.length_append] at this
              omega
            have hTl : P.lit1.length + gap.length + P.lit2.length ≤
                q.length := by
              have := congrArg List.length hw1
              simp [List.length_append] at this
              omega
            have hlen3 : r.length <
                P.lit1.length + P.lit2.length + gap.length := by
              rcases h3 with h3 | h3
              · rw [h3] at hlen
                simp at hlen
                omega
              · have hg : 1 ≤ gap.length := Nat.one_le_iff_ne_zero.mpr
                  (fun h0 => h3 (List.length_eq_zero.mp h0))
                by_cases hgo2 : P.gapOpt = true
                · rw [hgo2] at hlen
                  simp at hlen
                  omega
                · simp [hgo2] at hlen
                  omega
            omega
        · have hctx : Option.or r.getLast? prev = mt.getLast? := by
            rw [hlast prev (c :: cs) mt rest hm]
            cases hr : r.getLast? with
            | none => exact absurd (List.getLast?_eq_none_iff.mp hr) hr0
            | some z => rfl
          rw [hctx] at hocc2
          exact ih mt.getLast? rest hrl hocc2

theorem matchControl4_last {p : Option Char} {s mt rest : Str}
    (h : matchControl4 p s = some (mt, rest)) :
    mt.getLast? = ("control4".data).getLast? := by
  obtain ⟨gap, hmt, _, _, _⟩ := matchControl4_spec h
  rw [hmt, List.getLast?_concat]
  decide

theorem matchControl4_headEq {p : Option Char} {s mt rest : Str}
    (h : matchControl4 p s = some (mt, rest)) :
    mt.head? = ("control4".data).head? := by
  obtain ⟨gap, hmt, _, _, _⟩ := matchControl4_spec h
  rw [hmt]
  rfl

theorem match4Sight_last {p : Option Char} {s mt rest : Str}
    (h : match4Sight p s = some (mt, rest)) :
    mt.getLast? = ("4sight".data).getLast? := by
  obtain ⟨gap, hmt, _, _, _, _⟩ := match4Sight_spec h
  have hsi : "sight".data = "sigh".data ++ ['t'] := by decide
  rw [hmt, hsi, ← List.append_assoc, List.getLast?_concat]
  decide

theorem match4Sight_headEq {p : Option Char} {s mt rest : Str}
    (h : match4Sight p s = some (mt, rest)) :
    mt.head? = ("4sight".data).head? := by
  obtain ⟨gap, hmt, _, _, _, _⟩ := match4Sight_spec h
  rw [hmt]
  rfl

theorem matchOsV3_last {p : Option Char} {s mt rest : Str}
    (h : matchOsV3 p s = some (mt, rest)) :
    mt.getLast? = ("os3".data).getLast? := by
  obtain ⟨gap, hmt, _, _, _, _⟩ := matchOsV3_spec h
  rcases hmt with hmt | hmt
  · rw [hmt, List.getLast?_concat]
    decide
  · have hv3 : (['v', '3'] : Str) = ['v'] ++ ['3'] := rfl
    rw [hmt, hv3, ← List.append_assoc, List.getLast?_concat]
    decide

theorem matchOsV3_headEq {p : Option Char} {s mt rest : Str}
    (h : matchOsV3 p s = some (mt, rest)) :
    mt.head? = ("os3".data).head? := by
  obtain ⟨gap, hmt, _, _, _, _⟩ := matchOsV3_spec h
  rcases hmt with hmt | hmt <;> (rw [hmt]; rfl)

/-- The `control\s*4\b` scan leaves no proper occurrence of its own
pattern in its output. -/
theorem noOcc_scanA_C4 (v : Str) :
    ¬ OccG shapeC4 none (replaceAll matchControl4 "control4".data v) := by
  refine scan_self matchControl4 "control4".data shapeC4
    matchControl4_decomp (by decide) (by decide) (by decide)
    (fun p s mt rest h => matchControl4_last h)
    (fun p s mt rest h => matchControl4_headEq h)
    (by decide) (by decide) (by decide) (by decide)
    ?_ v.length none v le_rfl
  intro prev gap rest hg _ _ hba hnone
  have heq : shapeC4.lit1 ++ gap ++ shapeC4.lit2 ++ rest =
      "control".data ++ (gap ++ '4' :: rest) := by
    simp [shapeC4, List.append_assoc]
  rw [heq, matchControl4_complete prev gap rest hg hba] at hnone
  exact absurd hnone (by simp)

/-- The `\b4\s*sight\b` scan leaves no proper occurrence of its own
pattern in its output. -/
theorem noOcc_scanB_Sight (v : Str) :
    ¬ OccG shapeSight none (replaceAll match4Sight "4sight".data v) := by
  refine scan_self match4Sight "4sight".data shapeSight
    match4Sight_decomp (by decide) (by decide) (by decide)
    (fun p s mt rest h => match4Sight_last h)
    (fun p s mt rest h => match4Sight_headEq h)
    (by decide) (by decide) (by decide) (by decide)
    ?_ v.length none v le_rfl
  intro prev gap rest hg _ hbn hba hnone
  have hbb : jsBoundaryBefore prev = true := by
    rw [bCtx_eq_boundary]
    exact hbn rfl
  have heq : shapeSight.lit1 ++ gap ++ shapeSight.lit2 ++ rest =
      '4' :: (gap ++ ("sight".data ++ rest)) := by
    simp [shapeSight, List.append_assoc]
  rw [heq, match4Sight_complete prev gap rest hg hba hbb] at hnone
  exact absurd hnone (by simp)

/-- The `\bos\s*v?3\b` scan leaves no gapped occurrence of the ungapped
form of its pattern in its output. -/
theorem noOcc_scanO_Os3 (v : Str) :
    ¬ OccG shapeOs3 none (replaceAll matchOsV3 "os3".data v) := by
  refine scan_self matchOsV3 "os3".data shapeOs3
    matchOsV3_decomp (by decide) (by decide) (by decide)
    (fun p s mt rest h => matchOsV3_last h)
    (fun p s mt rest h => matchOsV3_headEq h)
    (by decide) (by decide) (by decide) (by decide)
    ?_ v.length none v le_rfl
  intro prev gap rest hg _ hbn hba hnone
  have hbb : jsBoundaryBefore prev = true := by
    rw [bCtx_eq_boundary]
    exact hbn rfl
  have heq : shapeOs3.lit1 ++ gap ++ shapeOs3.lit2 ++ rest =
      "os".data ++ (gap ++ '3' :: rest) := by
    simp [shapeOs3, List.append_assoc]
  rw [heq, matchOsV3_complete_3 prev gap rest hg hba hbb] at hnone
  exact absurd hnone (by simp)

/-- The `\bos\s*v?3\b` scan leaves no occurrence of the `v` form of its
pattern in its output. -/
theorem noOcc_scanO_OsV3 (v : Str) :
    ¬ OccG shapeOsV3 none (replaceAll matchOsV3 "os3".data v) := by
  refine scan_self matchOsV3 "os3".data shapeOsV3
    matchOsV3_decomp (by decide) (by decide) (by decide)
    (fun p s mt rest h => matchOsV3_last h)
    (fun p s mt rest h => matchOsV3_headEq h)
    (by decide) (by decide) (by decide) (by decide)
    ?_ v.length none v le_rfl
  intro prev gap rest hg _ hbn hba hnone
  have hbb : jsBoundaryBefore prev = true := by
    rw [bCtx_eq_boundary]
    exact hbn rfl
  have heq : shapeOsV3.lit1 ++ gap ++ shapeOsV3.lit2 ++ rest =
      "os".data ++ (gap ++ 'v' :: '3' :: rest) := by
    simp [shapeOsV3, List.append_assoc]
  rw [heq, matchOsV3_complete_v prev gap rest hg hba hbb] at hnone
  exact absurd hnone (by simp)

/-- Occurrences of `control\s+4` reflect backwards through the
`os\s*v?3` scan. -/
theorem occ_reflect_O_C4 {s : Str}
    (h : OccG shapeC4 none (replaceAll matchOsV3 "os3".data s)) :
    OccG shapeC4 none s :=
  scan_reflect matchOsV3 "os3".data shapeC4 matchOsV3_decomp
    (by decide) (by decide) (by decide)
    (fun p s mt rest h => matchOsV3_last h)
    (fun p s mt rest h => matchOsV3_headEq h)
    (by decide) (by decide) (by decide) (by decide)
    s.length none s le_rfl h

/-- Occurrences of `4\s+sight` reflect backwards through the
`os\s*v?3` scan. -/
theorem occ_reflect_O_Sight {s : Str}
    (h : OccG shapeSight none (replaceAll matchOsV3 "os3".data s)) :
    OccG shapeSight none s :=
  scan_reflect matchOsV3 "os3".data shapeSight matchOsV3_decomp
    (by decide) (by decide) (by decide)
    (fun p s mt rest h => matchOsV3_last h)
    (fun p s mt rest h => matchOsV3_headEq h)
    (by decide) (by decide) (by decide) (by decide)
    s.length none s le_rfl h

/-- Occurrences of `control\s+4` reflect backwards through the
`4\s*sight` scan. -/
theorem occ_reflect_B_C4 {s : Str}
    (h : OccG shapeC4 none (replaceAll match4Sight "4sight".data s)) :
    OccG shapeC4 none s :=
  scan_reflect match4Sight "4sight".data shapeC4 match4Sight_decomp
    (by decide) (by decide) (by decide)
    (fun p s mt rest h => match4Sight_last h)
    (fun p s mt rest h => match4Sight_headEq h)
    (by decide) (by decide) (by decide) (by decide)
    s.length none s le_rfl h

/-! ### The whitespace collapse in closed form -/

theorem collapse_cons_not_ws {c : Char} {cs : Str} (h : isJsWs c = false) :
    collapse (c :: cs) = c :: collapse cs := by
  simp [collapse, h]

theorem collapse_ws_head (cs : Str) : ∀ {c : Char}, isJsWs c = true →
    ∃ out2, collapse (c :: cs) = ' ' :: out2 := by
  induction cs with
  | nil =>
    intro c h
    exact ⟨[], by simp [collapse, h]⟩
  | cons c2 t ih =>
    intro c h
    by_cases h2 : isJsWs c2 = true
    · obtain ⟨out2, ho⟩ := ih h2
      exact ⟨out2, by simpa [collapse, h, h2] using ho⟩
    · exact ⟨collapse (c2 :: t), by simp [collapse, h, h2]⟩

theorem ws_not_word {c : Char} (h : isJsWs c = true) :
    isJsWord c = false := by
  simp only [isJsWs, Bool.or_eq_true, beq_iff_eq, Bool.and_eq_true,
    decide_eq_true_eq] at h
  rw [Bool.eq_false_iff]
  intro hw
  simp only [isJsWord, Bool.or_eq_true, beq_iff_eq, Bool.and_eq_true,
    decide_eq_true_eq] at hw
  omega

theorem collapse_eq_ws_cons : ∀ {t : Str} {d : Char} {out2 : Str},
    collapse t = d :: out2 → isJsWs d = true →
    d = ' ' ∧ ∃ run t3, t = run ++ t3 ∧ run ≠ [] ∧
      (∀ c ∈ run, isJsWs c = true) ∧
      ((t3 = [] ∧ out2 = []) ∨
       (∃ e es, t3 = e :: es ∧ isJsWs e = false ∧ out2 = collapse t3)) := by
  intro t
  induction t with
  | nil =>
    intro d out2 h _
    simp [collapse] at h
  | cons c cs ih =>
    intro d out2 h hd
    by_cases hc : isJsWs c = true
    · cases cs with
      | nil =>
        have he : collapse (c :: ([] : Str)) = [' '] := by simp [collapse, hc]
        rw [he] at h
        injection h with h1 h2
        refine ⟨h1.symm, [c], [], rfl, by simp, ?_, Or.inl ⟨rfl, h2.symm⟩⟩
        intro x hx
        simp at hx
        subst hx
        exact hc
      | cons c2 t2 =>
        by_cases h2 : isJsWs c2 = true
        · have h' : collapse (c2 :: t2) = d :: out2 := by
            simpa [collapse, hc, h2] using h
          obtain ⟨hd', run, t3, ht, hrne, hrws, hcase⟩ := ih h' hd
          refine ⟨hd', c :: run, t3, by rw [List.cons_append, ← ht],
            by simp, ?_, hcase⟩
          intro x hx
          rcases List.mem_cons.mp hx with hx | hx
          · subst hx
            exact hc
          · exact hrws x hx
        · have h' : (' ' :: collapse (c2 :: t2) : Str) = d :: out2 := by
            simpa [collapse, hc, h2] using h
          injection h' with h1 h2'
          have h2f : isJsWs c2 = false := by simpa using h2
          refine ⟨h1.symm, [c], c2 :: t2, rfl, by simp, ?_,
            Or.inr ⟨c2, t2, rfl, h2f, h2'.symm⟩⟩
          intro x hx
          simp at hx
          subst hx
          exact hc
    · have hcf : isJsWs c = false := by simpa using hc
      rw [collapse_cons_not_ws hcf] at h
      injection h with h1 _
      rw [← h1] at hd
      rw [hd] at hcf
      exact absurd hcf (by simp)

theorem collapse_eq_cons_not_ws {t : Str} {d : Char} {out2 : Str}
    (h : collapse t = d :: out2) (hd : isJsWs d = false) :
    ∃ t2, t = d :: t2 ∧ out2 = collapse t2 := by
  cases t with
  | nil => simp [collapse] at h
  | cons c cs =>
    by_cases hc : isJsWs c = true
    · obtain ⟨o2, ho⟩ := collapse_ws_head cs hc
      rw [ho] at h
      injection h with h1 _
      rw [← h1] at hd
      exact absurd hd (by simp [isJsWs])
    · have hcf : isJsWs c = false := by simpa using hc
      rw [collapse_cons_not_ws hcf] at h
      injection h with h1 h2
      exact ⟨cs, by rw [h1], h2.symm⟩

theorem collapse_eq_lit_append : ∀ {L t rest : Str},
    (∀ c ∈ L, isJsWs c = false) → collapse t = L ++ rest →
    ∃ t2, t = L ++ t2 ∧ rest = collapse t2 := by
  intro L
  induction L with
  | nil =>
    intro t rest _ h
    exact ⟨t, rfl, by simpa using h.symm⟩
  | cons x xs ih =>
    intro t rest hws h
    rw [List.cons_append] at h
    obtain ⟨t2, ht, ho⟩ := collapse_eq_cons_not_ws h (hws x (by simp))
    obtain ⟨t3, ht3, ho3⟩ := ih (fun c hc => hws c (by simp [hc])) ho.symm
    exact ⟨t3, by rw [ht, ht3, List.cons_append], ho3⟩

theorem collapse_boundaryAfter {t : Str}
    (h : jsBoundaryAfter (collapse t) = true) :
    jsBoundaryAfter t = true := by
  cases t with
  | nil => rfl
  | cons c cs =>
    by_cases hc : isJsWs c = true
    · simp [jsBoundaryAfter, ws_not_word hc]
    · have hcf : isJsWs c = false := by simpa using hc
      rw [collapse_cons_not_ws hcf] at h
      simpa [jsBoundaryAfter] using h

theorem collapse_ws_run : ∀ {cs : Str} {c : Char}, isJsWs c = true →
    collapse (c :: cs) = ' ' :: collapse ((c :: cs).dropWhile isJsWs) := by
  intro cs
  induction cs with
  | nil =>
    intro c h
    simp [collapse, List.dropWhile, h]
  | cons c2 t ih =>
    intro c h
    by_cases h2 : isJsWs c2 = true
    · rw [List.dropWhile_cons_of_pos h]
      have hl : collapse (c :: c2 :: t) = collapse (c2 :: t) := by
        simp [collapse, h, h2]
      rw [hl, ih h2]
    · rw [List.dropWhile_cons_of_pos h,
        List.dropWhile_cons_of_neg (by simp [h2])]
      simp [collapse, h, h2]

theorem wsGo_eq_collapse : ∀ (fuel : Nat) (prev : Option Char) (s : Str),
    s.length ≤ fuel → replaceGo matchJsWsRun [' '] fuel prev s =
      collapse s := by
  intro fuel
  induction fuel with
  | zero =>
    intro prev s hle
    have hs : s = [] := List.length_eq_zero.mp (Nat.le_zero.mp hle)
    subst hs
    rfl
  | succ fuel ih =>
    intro prev s hle
    cases s with
    | nil => rfl
    | cons c cs =>
      by_cases hc : isJsWs c = true
      · have hm : matchJsWsRun prev (c :: cs) =
            some ((c :: cs).takeWhile isJsWs, (c :: cs).dropWhile isJsWs) := by
          simp [matchJsWsRun, hc]
        rw [replaceGo, hm]
        dsimp only
        have hrl : ((c :: cs).dropWhile isJsWs).length ≤ fuel := by
          rw [List.dropWhile_cons_of_pos hc]
          calc (cs.dropWhile isJsWs).length
              ≤ cs.length := (List.dropWhile_sublist isJsWs).length_le
            _ ≤ fuel := by simpa using Nat.le_of_succ_le_succ hle
        rw [ih _ _ hrl, collapse_ws_run hc]
        rfl
      · have hcf : isJsWs c = false := by simpa using hc
        have hm : matchJsWsRun prev (c :: cs) = none := by
          simp [matchJsWsRun, hcf]
        rw [replaceGo, hm]
        dsimp only
        rw [ih _ _ (by simpa using Nat.le_of_succ_le_succ hle),
          collapse_cons_not_ws hcf]

theorem wsReplaceAll_eq_collapse (s : Str) :
    replaceAll matchJsWsRun [' '] s = collapse s :=
  wsGo_eq_collapse s.length none s le_rfl

theorem collapse_clean (t : Str) :
    noAdjWs (collapse t) = true ∧ allWsSpace (collapse t) = true := by
  induction t with
  | nil => exact ⟨rfl, rfl⟩
  | cons c cs ih =>
    by_cases hc : isJsWs c = true
    · cases cs with
      | nil =>
        have he : collapse (c :: ([] : Str)) = [' '] := by simp [collapse, hc]
        refine ⟨?_, ?_⟩ <;> rw [he] <;> decide
      | cons c2 t2 =>
        by_cases h2 : isJsWs c2 = true
        · have he : collapse (c :: c2 :: t2) = collapse (c2 :: t2) := by
            simp [collapse, hc, h2]
          rw [he]
          exact ih
        · have hcf2 : isJsWs c2 = false := by simpa using h2
          have he : collapse (c :: c2 :: t2) = ' ' :: collapse (c2 :: t2) := by
            simp [collapse, hc, h2]
          have hh : collapse (c2 :: t2) = c2 :: collapse t2 :=
            collapse_cons_not_ws hcf2
          refine ⟨?_, ?_⟩
          · rw [he, hh]
            have h1 := ih.1
            rw [hh] at h1
            show (!(isJsWs ' ' && isJsWs c2) &&
              noAdjWs (c2 :: collapse t2)) = true
            simp [hcf2, h1]
          · rw [he]
            simp only [allWsSpace, List.all_cons, Bool.and_eq_true]
            exact ⟨by decide, by simpa [allWsSpace] using ih.2⟩
    · have hcf : isJsWs c = false := by simpa using hc
      have he : collapse (c :: cs) = c :: collapse cs :=
        collapse_cons_not_ws hcf
      refine ⟨?_, ?_⟩
      · rw [he]
        cases hcc : collapse cs with
        | nil => rfl
        | cons d ds =>
          show (!(isJsWs c && isJsWs d) && noAdjWs (d :: ds)) = true
          have h1 := ih.1
          rw [hcc] at h1
          simp [hcf, h1]
      · rw [he]
        simp only [allWsSpace, List.all_cons, Bool.and_eq_true]
        exact ⟨by simp [hcf], by simpa [allWsSpace] using ih.2⟩

theorem bCtx_not_wordCtx (o : Option Char) : bCtx o = !wordCtx o := by
  cases o <;> rfl

/-- Occurrences of a whitespace-free-literal shape reflect backwards
through the whitespace collapse: the single-space gap of the output
pulls back to the whitespace run of the input. -/
theorem coll_occ_reflect (P : PatShape) (hL1 : P.lit1 ≠ [])
    (hL2 : P.lit2 ≠ [])
    (hw1 : ∀ c ∈ P.lit1, isJsWs c = false)
    (hw2 : ∀ c ∈ P.lit2, isJsWs c = false) :
    ∀ (n : Nat) (t : Str) (po pi : Option Char), t.length ≤ n →
      wordCtx po = wordCtx pi →
      OccG P po (collapse t) → OccG P pi t := by
  intro n
  induction n with
  | zero =>
    intro t po pi hle _ hocc
    have ht : t = [] := List.length_eq_zero.mp (Nat.le_zero.mp hle)
    subst ht
    exact (occ_nil_false hL1 hocc).elim
  | succ n ih =>
    intro t po pi hle hctx hocc
    obtain ⟨pre, gap, rest, heq, hgap, hval, hbc, hba⟩ := hocc
    cases pre with
    | nil =>
      have heq' : collapse t = P.lit1 ++ (gap ++ (P.lit2 ++ rest)) := by
        simpa [List.append_assoc] using heq
      obtain ⟨t2, ht2, hrest2⟩ := collapse_eq_lit_append hw1 heq'
      have hbcnew : P.bneed = false ∨
          bCtx (Option.or ([] : Str).getLast? pi) = true := by
        rcases hbc with hb | hb
        · exact Or.inl hb
        · right
          have hb' : bCtx po = true := hb
          show bCtx pi = true
          rw [bCtx_not_wordCtx] at hb' ⊢
          rw [← hctx]
          exact hb'
      cases gap with
      | nil =>
        have hrest2' : collapse t2 = P.lit2 ++ rest := by
          simpa using hrest2.symm
        obtain ⟨t4, ht4, hrest4⟩ := collapse_eq_lit_append hw2 hrest2'
        refine ⟨[], [], t4, ?_, by simp, ?_, hbcnew, ?_⟩
        · rw [ht2, ht4]
          simp [List.append_assoc]
        · rcases hval with hv | hv
          · exact Or.inl hv
          · exact absurd rfl hv
        · rw [hrest4] at hba
          exact collapse_boundaryAfter hba
      | cons g gs =>
        have hgws : isJsWs g = true := hgap g (by simp)
        have hc2 : collapse t2 = g :: (gs ++ (P.lit2 ++ rest)) := by
          rw [← hrest2]
          rfl
        obtain ⟨hg', run, t3, ht3, hrne, hrws, hcase⟩ :=
          collapse_eq_ws_cons hc2 hgws
        rcases hcase with ⟨ht3e, ho2e⟩ | ⟨e, es, ht3e, hews, ho2⟩
        · exfalso
          have hl2e : P.lit2 = [] := by
            simp [List.append_eq_nil] at ho2e
            exact ho2e.2.1
          exact hL2 hl2e
        · cases gs with
          | cons g2 gs2 =>
            exfalso
            have hg2ws : isJsWs g2 = true := hgap g2 (by simp)
            have hce : collapse t3 = e :: collapse es := by
              rw [ht3e]
              exact collapse_cons_not_ws hews
            rw [hce, List.cons_append] at ho2
            injection ho2 with h1 _
            rw [h1] at hg2ws
            rw [hews] at hg2ws
            exact absurd hg2ws (by simp)
          | nil =>
            have ho2' : collapse t3 = P.lit2 ++ rest := by
              simpa using ho2.symm
            obtain ⟨t4, ht4, hrest4⟩ := collapse_eq_lit_append hw2 ho2'
            refine ⟨[], run, t4, ?_, hrws, Or.inr hrne, hbcnew, ?_⟩
            · rw [ht2, ht3, ht4]
              simp [List.append_assoc]
            · rw [hrest4] at hba
              exact collapse_boundaryAfter hba
    | cons p0 pre2 =>
      have heq' : collapse t =
          p0 :: (pre2 ++ P.lit1 ++ gap ++ P.lit2 ++ rest) := by
        rw [heq]
        simp [List.append_assoc]
      by_cases hp0 : isJsWs p0 = true
      · obtain ⟨hp', run, t3, ht3, hrne, hrws, hcase⟩ :=
          collapse_eq_ws_cons heq' hp0
        rcases hcase with ⟨ht3e, ho2e⟩ | ⟨e, es, ht3e, hews, ho2⟩
        · exfalso
          have hl1e : P.lit1 = [] := by
            simp [List.append_eq_nil] at ho2e
            exact ho2e.2.1
          exact hL1 hl1e
        · have hocc3 : OccG P (some ' ') (collapse t3) := by
            refine ⟨pre2, gap, rest, ho2.symm, hgap, hval, ?_, hba⟩
            rcases hbc with hb | hb
            · exact Or.inl hb
            · right
              rw [or_getLast_cons] at hb
              cases hpre2 : pre2.getLast? with
              | some z =>
                rw [hpre2] at hb
                exact hb
              | none => decide
          have hlen3 : t3.length ≤ n := by
            have hlt := congrArg List.length ht3
            rw [List.length_append] at hlt
            have hrl : 1 ≤ run.length := Nat.one_le_iff_ne_zero.mpr
              (fun h0 => hrne (List.length_eq_zero.mp h0))
            omega
          have hctx3 : wordCtx (some ' ') =
              wordCtx (Option.or run.getLast? pi) := by
            cases hrl2 : run.getLast? with
            | none => exact absurd (List.getLast?_eq_none_iff.mp hrl2) hrne
            | some z =>
              have hzlast : z ∈ run.getLast? := by
                rw [Option.mem_def, hrl2]
              obtain ⟨hne', hz⟩ := List.mem_getLast?_eq_getLast hzlast
              have hzmem : z ∈ run := hz ▸ List.getLast_mem hne'
              show isJsWord ' ' = isJsWord z
              rw [ws_not_word (hrws z hzmem)]
              decide
          have hocc4 := ih t3 (some ' ') (Option.or run.getLast? pi) hlen3
            hctx3 hocc3
          rw [ht3]
          exact occ_append_lift hocc4
      · have hp0f : isJsWs p0 = false := by simpa using hp0
        obtain ⟨t2, ht2, ho2⟩ := collapse_eq_cons_not_ws heq' hp0f
        have hocc2 : OccG P (some p0) (collapse t2) := by
          refine ⟨pre2, gap, rest, ?_, hgap, hval, ?_, hba⟩
          · rw [← ho2]
          · rcases hbc with hb | hb
            · exact Or.inl hb
            · right
              rw [or_getLast_cons] at hb
              exact hb
        have hlen2 : t2.length ≤ n := by
          have hlt := congrArg List.length ht2
          simp only [List.length_cons] at hlt
          omega
        have hocc3 := ih t2 (some p0) (some p0) hlen2 rfl hocc2
        rw [ht2]
        exact occ_cons_lift hocc3

/-! ### Trim decomposition and preservation lemmas -/

theorem dropWhile_eq_jsTrim_append (w : Str) :
    w.dropWhile isJsWs = jsTrim w ++
      ((w.dropWhile isJsWs).reverse.takeWhile isJsWs).reverse := by
  conv_lhs => rw [← List.reverse_reverse (w.dropWhile isJsWs),
    ← List.takeWhile_append_dropWhile isJsWs (w.dropWhile isJsWs).reverse,
    List.reverse_append]
  rfl

theorem jsTrim_decomp (w : Str) : ∃ a b, w = a ++ jsTrim w ++ b ∧
    (∀ c ∈ a, isJsWs c = true) ∧ (∀ c ∈ b, isJsWs c = true) := by
  refine ⟨w.takeWhile isJsWs,
    ((w.dropWhile isJsWs).reverse.takeWhile isJsWs).reverse, ?_, ?_, ?_⟩
  · conv_lhs => rw [← List.takeWhile_append_dropWhile isJsWs w,
      dropWhile_eq_jsTrim_append w]
    rw [List.append_assoc]
  · exact fun c hc => List.mem_takeWhile_imp hc
  · intro c hc
    rw [List.mem_reverse] at hc
    exact List.mem_takeWhile_imp hc

theorem occ_trim_lift {P : PatShape} {po : Option Char} {w : Str}
    (h : OccG P po (jsTrim w)) : OccG P po w := by
  obtain ⟨a, b, hw, ha, hb⟩ := jsTrim_decomp w
  obtain ⟨pre, gap, rest, heq, hgap, hval, hbc, hba⟩ := h
  refine ⟨a ++ pre, gap, rest ++ b, ?_, hgap, hval, ?_, ?_⟩
  · rw [hw, heq]
    simp [List.append_assoc]
  · rcases hbc with hbn | hbn
    · exact Or.inl hbn
    · right
      by_cases hpe : pre = []
      · subst hpe
        rw [List.append_nil]
        cases ha2 : a.getLast? with
        | none => exact hbn
        | some z =>
          have hzlast : z ∈ a.getLast? := by rw [Option.mem_def, ha2]
          obtain ⟨hne', hz⟩ := List.mem_getLast?_eq_getLast hzlast
          have hzmem : z ∈ a := hz ▸ List.getLast_mem hne'
          show bCtx (Option.or (some z) po) = true
          simp [bCtx, ws_not_word (ha z hzmem)]
      · rw [List.getLast?_append_of_ne_nil a hpe]
        exact hbn
  · cases rest with
    | cons d ds =>
      rw [List.cons_append]
      simpa [jsBoundaryAfter] using hba
    | nil =>
      rw [List.nil_append]
      cases b with
      | nil => rfl
      | cons d ds =>
        have hd := hb d (by simp)
        simp [jsBoundaryAfter, ws_not_word hd]

theorem jsTrim_head_not_ws {w : Str} {c : Char}
    (h : (jsTrim w).head? = some c) : isJsWs c = false := by
  have hm := dropWhile_eq_jsTrim_append w
  cases hj : jsTrim w with
  | nil =>
    rw [hj] at h
    simp at h
  | cons d ds =>
    rw [hj] at h hm
    simp only [List.head?_cons, Option.some.injEq] at h
    have hh : (w.dropWhile isJsWs).head? = some d := by
      rw [hm]
      rfl
    rw [h] at hh
    exact head_dropWhile_false isJsWs w hh

theorem jsTrim_last_not_ws {w : Str} {c : Char}
    (h : (jsTrim w).getLast? = some c) : isJsWs c = false := by
  rw [← List.head?_reverse] at h
  unfold jsTrim at h
  rw [List.reverse_reverse] at h
  exact head_dropWhile_false isJsWs _ h

theorem jsTrim_idem (w : Str) : jsTrim (jsTrim w) = jsTrim w := by
  have h1 : (jsTrim w).dropWhile isJsWs = jsTrim w := by
    cases hj : jsTrim w with
    | nil => rfl
    | cons d ds =>
      have hd : isJsWs d = false := jsTrim_head_not_ws (by rw [hj]; rfl)
      rw [List.dropWhile_cons_of_neg (by simp [hd])]
  have h2 : (jsTrim w).reverse.dropWhile isJsWs = (jsTrim w).reverse := by
    cases hj : (jsTrim w).reverse with
    | nil => rfl
    | cons d ds =>
      have hdl : (jsTrim w).getLast? = some d := by
        rw [← List.head?_reverse, hj]
        rfl
      have hd : isJsWs d = false := jsTrim_last_not_ws hdl
      rw [List.dropWhile_cons_of_neg (by simp [hd])]
  show (((jsTrim w).dropWhile isJsWs).reverse.dropWhile isJsWs).reverse =
    jsTrim w
  rw [h1, h2, List.reverse_reverse]

theorem noAdjWs_of_append_right {a u : Str}
    (h : noAdjWs (a ++ u) = true) : noAdjWs u = true := by
  induction a with
  | nil => exact h
  | cons x xt ih => exact ih (noAdjWs_tail h)

theorem noAdjWs_of_append_left : ∀ {u b : Str},
    noAdjWs (u ++ b) = true → noAdjWs u = true := by
  intro u
  induction u with
  | nil =>
    intro b _
    rfl
  | cons x u2 ih =>
    intro b h
    have h2 : noAdjWs (u2 ++ b) = true := noAdjWs_tail h
    cases u2 with
    | nil => rfl
    | cons y t =>
      have hx : (!(isJsWs x && isJsWs y) &&
          noAdjWs ((y :: t) ++ b)) = true := h
      rw [Bool.and_eq_true] at hx
      show (!(isJsWs x && isJsWs y) && noAdjWs (y :: t)) = true
      rw [Bool.and_eq_true]
      exact ⟨hx.1, ih h2⟩

theorem allWsSpace_of_append {a u b : Str}
    (h : allWsSpace (a ++ u ++ b) = true) : allWsSpace u = true := by
  simp only [allWsSpace, List.all_append, Bool.and_eq_true] at h
  exact h.1.2

/-! ### Character-set facts: the pipeline output is lowercase ASCII -/

theorem replaceGo_chars (m : Matcher) (r : Str) (hd : Decomposes m) :
    ∀ fuel prev s c, c ∈ replaceGo m r fuel prev s → c ∈ s ∨ c ∈ r := by
  intro fuel
  induction fuel with
  | zero =>
    intro prev s c hc
    exact Or.inl (by simpa [replaceGo] using hc)
  | succ fuel ih =>
    intro prev s c hc
    cases s with
    | nil => simp [replaceGo] at hc
    | cons x cs =>
      cases hm : m prev (x :: cs) with
      | none =>
        rw [replaceGo, hm] at hc
        dsimp only at hc
        rcases List.mem_cons.mp hc with hc | hc
        · exact Or.inl (by simp [hc])
        · rcases ih (some x) cs c hc with h | h
          · exact Or.inl (by simp [h])
          · exact Or.inr h
      | some pr =>
        obtain ⟨mt, rest⟩ := pr
        rw [replaceGo, hm] at hc
        dsimp only at hc
        rcases List.mem_append.mp hc with hc | hc
        · exact Or.inr hc
        · rcases ih mt.getLast? rest c hc with h | h
          · obtain ⟨hs, _⟩ := hd prev (x :: cs) mt rest hm
            exact Or.inl (by rw [hs]; exact List.mem_append_right _ h)
          · exact Or.inr h

theorem jsTrim_chars {w : Str} {c : Char} (h : c ∈ jsTrim w) : c ∈ w := by
  obtain ⟨a, b, hw, _, _⟩ := jsTrim_decomp w
  rw [hw]
  exact List.mem_append_left _ (List.mem_append_right _ h)

theorem char_toNat_ofNat {n : Nat} (h : n < 55296) :
    (Char.ofNat n).toNat = n := by
  simp only [Char.ofNat, Nat.isValidChar]
  rw [dif_pos (Or.inl h)]
  rfl

theorem jsToLower_lowSafe {c : Char} (h : c.toNat < 128) :
    lowSafe (jsToLower c) = true := by
  unfold jsToLower
  by_cases hu : isUpperAscii c = true
  · rw [if_pos hu]
    simp only [isUpperAscii, Bool.and_eq_true, decide_eq_true_eq] at hu
    have h32 : (Char.ofNat (c.toNat + 32)).toNat = c.toNat + 32 :=
      char_toNat_ofNat (by omega)
    simp [lowSafe, isUpperAscii, h32]
    omega
  · rw [if_neg hu]
    simp only [isUpperAscii, Bool.and_eq_true, decide_eq_true_eq, not_and,
      not_le] at hu
    simp [lowSafe, isUpperAscii]
    omega

theorem foldLower_lowSafe {s : Str} (h : ∀ c ∈ s, c.toNat < 128) :
    ∀ c ∈ foldLower s, lowSafe c = true := by
  intro c hc
  rw [foldLower, List.mem_filter] at hc
  obtain ⟨hc1, _⟩ := hc
  rw [List.mem_flatMap] at hc1
  obtain ⟨d, hd1, hd2⟩ := hc1
  rw [List.mem_map] at hd1
  obtain ⟨e, he1, he2⟩ := hd1
  have hdlow : lowSafe d = true := he2 ▸ jsToLower_lowSafe (h e he1)
  have hd128 : d.toNat < 128 := by
    simp only [lowSafe, Bool.and_eq_true, decide_eq_true_eq] at hdlow
    exact hdlow.1
  have h8482 : (d.toNat == 8482) = false := by
    simp only [beq_eq_false_iff_ne, ne_eq]
    omega
  have hnf : nfkdChar d = [d] := by simp [nfkdChar, h8482]
  rw [hnf] at hd2
  simp at hd2
  rw [hd2]
  exact hdlow

theorem normalizeLocalL_lowSafe {s : Str} (h : ∀ c ∈ s, c.toNat < 128) :
    ∀ c ∈ normalizeLocalL s, lowSafe c = true := by
  intro c hc
  have hc1 := jsTrim_chars hc
  rcases replaceGo_chars matchJsWsRun [' '] matchJsWsRun_decomp _ none _
    c hc1 with hc2 | hc2
  swap
  · simp at hc2
    rw [hc2]
    decide
  rcases replaceGo_chars matchOsV3 "os3".data matchOsV3_decomp _ none _
    c hc2 with hc3 | hc3
  swap
  · exact (by decide : ∀ x ∈ ("os3".data), lowSafe x = true) c hc3
  rcases replaceGo_chars match4Sight "4sight".data match4Sight_decomp _
    none _ c hc3 with hc4 | hc4
  swap
  · exact (by decide : ∀ x ∈ ("4sight".data), lowSafe x = true) c hc4
  rcases replaceGo_chars matchControl4 "control4".data matchControl4_decomp
    _ none _ c hc4 with hc5 | hc5
  swap
  · exact (by decide : ∀ x ∈ ("control4".data), lowSafe x = true) c hc5
  exact foldLower_lowSafe h c hc5

theorem foldLower_fixed : ∀ {u : Str}, (∀ c ∈ u, lowSafe c = true) →
    foldLower u = u := by
  intro u
  induction u with
  | nil =>
    intro _
    rfl
  | cons c t ih =>
    intro h
    have hcl : lowSafe c = true := h c (by simp)
    have hcc : jsToLower c = c := by
      simp only [lowSafe, Bool.and_eq_true] at hcl
      have hup : isUpperAscii c = false := by simpa using hcl.2
      simp [jsToLower, hup]
    have hc128 : c.toNat < 128 := by
      simp only [lowSafe, Bool.and_eq_true, decide_eq_true_eq] at hcl
      exact hcl.1
    have h8482 : (c.toNat == 8482) = false := by
      simp only [beq_eq_false_iff_ne, ne_eq]
      omega
    have hnf : nfkdChar c = [c] := by simp [nfkdChar, h8482]
    have hcomb : isCombining c = false := by
      simp only [isCombining, Bool.and_eq_true, decide_eq_true_eq]
      simp
      omega
    have ih2 := ih (fun x hx => h x (by simp [hx]))
    rw [foldLower] at ih2 ⊢
    rw [List.map_cons, List.flatMap_cons, hcc, hnf, List.filter_append,
      ih2]
    simp [hcomb]

/-! ### Assembly: the normalizer output is a fixed point of itself -/

theorem noOcc_final_C4 (s : Str) :
    ¬ OccG shapeC4 none (normalizeLocalL s) := by
  intro h
  have h1 : OccG shapeC4 none (replaceAll matchJsWsRun [' ']
      (replaceAll matchOsV3 "os3".data
        (replaceAll match4Sight "4sight".data
          (replaceAll matchControl4 "control4".data (foldLower s))))) :=
    occ_trim_lift h
  rw [wsReplaceAll_eq_collapse] at h1
  have h2 := coll_occ_reflect shapeC4 (by decide) (by decide) (by decide)
    (by decide) _ _ none none le_rfl rfl h1
  exact noOcc_scanA_C4 (foldLower s) (occ_reflect_B_C4 (occ_reflect_O_C4 h2))

theorem noOcc_final_Sight (s : Str) :
    ¬ OccG shapeSight none (normalizeLocalL s) := by
  intro h
  have h1 : OccG shapeSight none (replaceAll matchJsWsRun [' ']
      (replaceAll matchOsV3 "os3".data
        (replaceAll match4Sight "4sight".data
          (replaceAll matchControl4 "control4".data (foldLower s))))) :=
    occ_trim_lift h
  rw [wsReplaceAll_eq_collapse] at h1
  have h2 := coll_occ_reflect shapeSight (by decide) (by decide) (by decide)
    (by decide) _ _ none none le_rfl rfl h1
  exact noOcc_scanB_Sight
    (replaceAll matchControl4 "control4".data (foldLower s))
    (occ_reflect_O_Sight h2)

theorem noOcc_final_Os3 (s : Str) :
    ¬ OccG shapeOs3 none (normalizeLocalL s) := by
  intro h
  have h1 : OccG shapeOs3 none (replaceAll matchJsWsRun [' ']
      (replaceAll matchOsV3 "os3".data
        (replaceAll match4Sight "4sight".data
          (replaceAll matchControl4 "control4".data (foldLower s))))) :=
    occ_trim_lift h
  rw [wsReplaceAll_eq_collapse] at h1
  have h2 := coll_occ_reflect shapeOs3 (by decide) (by decide) (by decide)
    (by decide) _ _ none none le_rfl rfl h1
  exact noOcc_scanO_Os3
    (replaceAll match4Sight "4sight".data
      (replaceAll matchControl4 "control4".data (foldLower s))) h2

theorem noOcc_final_OsV3 (s : Str) :
    ¬ OccG shapeOsV3 none (normalizeLocalL s) := by
  intro h
  have h1 : OccG shapeOsV3 none (replaceAll matchJsWsRun [' ']
      (replaceAll matchOsV3 "os3".data
        (replaceAll match4Sight "4sight".data
          (replaceAll matchControl4 "control4".data (foldLower s))))) :=
    occ_trim_lift h
  rw [wsReplaceAll_eq_collapse] at h1
  have h2 := coll_occ_reflect shapeOsV3 (by decide) (by decide) (by decide)
    (by decide) _ _ none none le_rfl rfl h1
  exact noOcc_scanO_OsV3
    (replaceAll match4Sight "4sight".data
      (replaceAll matchControl4 "control4".data (foldLower s))) h2

theorem normalizeLocalL_clean (s : Str) :
    noAdjWs (normalizeLocalL s) = true ∧
      allWsSpace (normalizeLocalL s) = true := by
  have hW : normalizeLocalL s = jsTrim (collapse
      (replaceAll matchOsV3 "os3".data
        (replaceAll match4Sight "4sight".data
          (replaceAll matchControl4 "control4".data (foldLower s))))) := by
    rw [normalizeLocalL, wsReplaceAll_eq_collapse]
  obtain ⟨hadj, hsp⟩ := collapse_clean
    (replaceAll matchOsV3 "os3".data
      (replaceAll match4Sight "4sight".data
        (replaceAll matchControl4 "control4".data (foldLower s))))
  obtain ⟨a, b, hdec, _, _⟩ := jsTrim_decomp (collapse
    (replaceAll matchOsV3 "os3".data
      (replaceAll match4Sight "4sight".data
        (replaceAll matchControl4 "control4".data (foldLower s)))))
  rw [hdec, List.append_assoc] at hadj
  rw [hdec] at hsp
  constructor
  · rw [hW]
    exact noAdjWs_of_append_left (noAdjWs_of_append_right hadj)
  · rw [hW]
    exact allWsSpace_of_append hsp

theorem normalizeLocalL_idem_ascii {s : Str}
    (h : ∀ c ∈ s, c.toNat < 128) :
    normalizeLocalL (normalizeLocalL s) = normalizeLocalL s := by
  have hlow := normalizeLocalL_lowSafe h
  have hC4 := noOcc_final_C4 s
  have hSi := noOcc_final_Sight s
  have hO3 := noOcc_final_Os3 s
  have hOV := noOcc_final_OsV3 s
  obtain ⟨hadj, hsp⟩ := normalizeLocalL_clean s
  have hfold : foldLower (normalizeLocalL s) = normalizeLocalL s :=
    foldLower_fixed hlow
  have hA : replaceAll matchControl4 "control4".data (normalizeLocalL s) =
      normalizeLocalL s :=
    replaceGo_fixed matchControl4 "control4".data matchControl4_decomp
      _ none _ le_rfl (okAt_control4_of_noOcc hC4)
  have hB : replaceAll match4Sight "4sight".data (normalizeLocalL s) =
      normalizeLocalL s :=
    replaceGo_fixed match4Sight "4sight".data match4Sight_decomp
      _ none _ le_rfl (okAt_sight_of_noOcc hSi)
  have hO : replaceAll matchOsV3 "os3".data (normalizeLocalL s) =
      normalizeLocalL s :=
    replaceGo_fixed matchOsV3 "os3".data matchOsV3_decomp
      _ none _ le_rfl (okAt_osv3_of_noOcc hO3 hOV)
  have hWf : replaceAll matchJsWsRun [' '] (normalizeLocalL s) =
      normalizeLocalL s :=
    replaceGo_fixed matchJsWsRun [' '] matchJsWsRun_decomp
      _ none _ le_rfl (okAt_wsrun_of_clean hadj hsp)
  have hT : jsTrim (normalizeLocalL s) = normalizeLocalL s :=
    jsTrim_idem (replaceAll matchJsWsRun [' ']
      (replaceAll matchOsV3 "os3".data
        (replaceAll match4Sight "4sight".data
          (replaceAll matchControl4 "control4".data (foldLower s)))))
  show jsTrim (replaceAll matchJsWsRun [' ']
    (replaceAll matchOsV3 "os3".data
      (replaceAll match4Sight "4sight".data
        (replaceAll matchControl4 "control4".data
          (foldLower (normalizeLocalL s)))))) = normalizeLocalL s
  rw [hfold, hA, hB, hO, hWf, hT]

/-- **C8** (amended).  `normalizeLocal` is idempotent on ASCII inputs:
for every string whose characters all have code points below 128,
`normalizeLocal (normalizeLocal s) = normalizeLocal s`.  (On general
Unicode input idempotence fails, because NFKD runs after lowercasing
and can reintroduce uppercase letters — see the counterexample
`c8_not_idempotent` on "™".) -/
theorem c8_idempotent_ascii (s : String)
    (h : ∀ c ∈ s.data, c.toNat < 128) :
    normalizeLocal (normalizeLocal s) = normalizeLocal s := by
  show (⟨normalizeLocalL (normalizeLocalL s.data)⟩ : String) =
    ⟨normalizeLocalL s.data⟩
  rw [normalizeLocalL_idem_ascii h]

/-- **C8** (witness).  The ASCII string "Control  4 sight os v3" is in
the hypothesis class and the normalizer is idempotent on it. -/
theorem c8_idempotent_ascii_witness :
    (∀ c ∈ ("Control  4 sight os v3".data), c.toNat < 128) ∧
      normalizeLocal (normalizeLocal "Control  4 sight os v3") =
        normalizeLocal "Control  4 sight os v3" :=
  ⟨by decide, c8_idempotent_ascii "Control  4 sight os v3" (by decide)⟩

end SupportBot
